import Mathlib

/-!
Verification development for the dnd-scene-visualizer pipeline.

The Python sources are embedded shallowly: pure fragments become Lean
functions over `List Char` / `String`, stateful fragments become explicit
state-passing functions, exceptions become `Except`, and the filesystem is
an explicit state record.  Each definition carries a comment naming the
source function and lines it embeds.
-/

namespace DndViz

/-- Characters treated as whitespace by Python `str.strip()` (ASCII part). -/
def isPySpace (c : Char) : Bool :=
  c = ' ' || c = '\t' || c = '\n' || c = '\r' || c = '\x0b' || c = '\x0c'

/-- Python `s.strip()` on a character list. -/
def trimChars (cs : List Char) : List Char :=
  ((cs.dropWhile isPySpace).reverse.dropWhile isPySpace).reverse

/-- Abbreviation turning a string literal into its character list. -/
def strLit (s : String) : List Char := s.data

/-- Python `s.split('\n')`: splitting on newline, keeping empty pieces. -/
def splitLines : List Char → List (List Char)
  | [] => [[]]
  | c :: rest =>
    match splitLines rest with
    | [] => [[]]
    | l :: ls => if c = '\n' then [] :: l :: ls else (c :: l) :: ls

/-- Python `z.split(': ', 1)[1]`: the remainder after the first `": "`,
`none` when the separator is absent (where CPython raises `IndexError`). -/
def splitFirstColonSpace : List Char → Option (List Char)
  | [] => none
  | ':' :: ' ' :: rest => some rest
  | _ :: rest => splitFirstColonSpace rest

/-- Failure modes of `SceneTranskriptParser._parse_transkript`
(src/parse_scene_transkript.py lines 27-75): the `FileNotFoundError` at
line 30, and the `IndexError` escaping from the metadata block at
lines 36-46 when a recognised header line lacks the `": "` separator. -/
inductive PErr where
  | notFound
  | indexError
deriving DecidableEq, Repr

/-- Assoc-list update with Python-dict semantics: replace in place,
append when the key is new. -/
def updateAssoc (m : List (List Char × List Char)) (k v : List Char) :
    List (List Char × List Char) :=
  match m with
  | [] => [(k, v)]
  | (k', v') :: rest =>
    if k' = k then (k, v) :: rest else (k', v') :: updateAssoc rest k v

/-- One header line of the metadata block, src/parse_scene_transkript.py
lines 36-46: the `startswith` chain with `zeile.split(': ', 1)[1]`. -/
def metaStep (m : List (List Char × List Char)) (z : List Char) :
    Except PErr (List (List Char × List Char)) :=
  if List.isPrefixOf (strLit "Transkript für:") z then
    match splitFirstColonSpace z with
    | some v => Except.ok (updateAssoc m (strLit "audio_file") v)
    | none => Except.error PErr.indexError
  else if List.isPrefixOf (strLit "Datum:") z then
    match splitFirstColonSpace z with
    | some v => Except.ok (updateAssoc m (strLit "datum") v)
    | none => Except.error PErr.indexError
  else if List.isPrefixOf (strLit "Sprache:") z then
    match splitFirstColonSpace z with
    | some v => Except.ok (updateAssoc m (strLit "sprache") v)
    | none => Except.error PErr.indexError
  else if List.isPrefixOf (strLit "Konfidenz:") z then
    match splitFirstColonSpace z with
    | some v => Except.ok (updateAssoc m (strLit "konfidenz") v)
    | none => Except.error PErr.indexError
  else if List.isPrefixOf (strLit "Dauer:") z then
    match splitFirstColonSpace z with
    | some v => Except.ok (updateAssoc m (strLit "dauer") v)
    | none => Except.error PErr.indexError
  else Except.ok m

/-- The metadata block: `for zeile in zeilen[:10]`
(src/parse_scene_transkript.py line 36). -/
def metaPass (zeilen : List (List Char)) :
    Except PErr (List (List Char × List Char)) :=
  (zeilen.take 10).foldlM metaStep []

/-- Consume one expected literal character. -/
def headIs (c : Char) (z : List Char) : Option (List Char) :=
  match z with
  | [] => none
  | x :: r => if x = c then some r else none

/-- Consume one `\d`. -/
def digitStep (z : List Char) : Option (Char × List Char) :=
  match z with
  | [] => none
  | x :: r => if x.isDigit then some (x, r) else none

/-- An 8-character block matching `\d{2}:\d{2}\.\d{2}`; returns the block
and the remaining input. -/
def matchTs (z : List Char) : Option (List Char × List Char) :=
  (digitStep z).bind fun p1 =>
  (digitStep p1.2).bind fun p2 =>
  (headIs ':' p2.2).bind fun r3 =>
  (digitStep r3).bind fun p4 =>
  (digitStep p4.2).bind fun p5 =>
  (headIs '.' p5.2).bind fun r6 =>
  (digitStep r6).bind fun p7 =>
  (digitStep p7.2).bind fun p8 =>
  some ([p1.1, p2.1, ':', p4.1, p5.1, '.', p7.1, p8.1], p8.2)

/-- `re.match(r'\[(\d{2}:\d{2}\.\d{2}) - (\d{2}:\d{2}\.\d{2})\] (.+)', zeile)`
from src/parse_scene_transkript.py line 68: anchored at the start, `(.+)`
greedy over non-newline characters, needing at least one. -/
def matchSegment (z : List Char) : Option (List Char × List Char × List Char) :=
  (headIs '[' z).bind fun r0 =>
  (matchTs r0).bind fun q1 =>
  (headIs ' ' q1.2).bind fun ra =>
  (headIs '-' ra).bind fun rb =>
  (headIs ' ' rb).bind fun r2 =>
  (matchTs r2).bind fun q2 =>
  (headIs ']' q2.2).bind fun rc =>
  (headIs ' ' rc).bind fun r4 =>
  match r4 with
  | [] => none
  | c :: _ =>
    if c = '\n' then none
    else some (q1.1, q2.1, r4.takeWhile (fun x => x ≠ '\n'))

/-- One timestamped segment: `start`, `ende` and (stripped) `text`,
as appended at src/parse_scene_transkript.py lines 71-75. -/
structure Segment where
  start : List Char
  ende : List Char
  text : List Char
deriving DecidableEq, Repr

/-- Loop state of the section scan, src/parse_scene_transkript.py
lines 49-75: the two flags, the volltext accumulator and the segments. -/
structure PState where
  vlt : Bool
  zst : Bool
  volltext : List Char
  segs : List Segment
deriving DecidableEq, Repr

/-- The literal `"VOLLTEXT:"` (src/parse_scene_transkript.py line 53). -/
def vollMarker : List Char := strLit "VOLLTEXT:"

/-- The literal `"ZEITGESTEMPELTE SEGMENTE:"`
(src/parse_scene_transkript.py line 56). -/
def zeitMarker : List Char := strLit "ZEITGESTEMPELTE SEGMENTE:"

/-- The literal `"====="` (src/parse_scene_transkript.py line 60). -/
def sepMarker : List Char := strLit "====="

/-- The volltext overwrite, src/parse_scene_transkript.py lines 63-64:
`if volltext_start and zeile.strip(): self.volltext = zeile.strip()`. -/
def volltextStep (st : PState) (z : List Char) : PState :=
  if st.vlt ∧ trimChars z ≠ [] then { st with volltext := trimChars z }
  else st

/-- The segment match, src/parse_scene_transkript.py lines 66-75. -/
def segStep (st : PState) (z : List Char) : PState :=
  if st.zst ∧ trimChars z ≠ [] then
    match matchSegment z with
    | some p => { st with segs := st.segs ++ [⟨p.1, p.2.1, trimChars p.2.2⟩] }
    | none => st
  else st

/-- One iteration of `for i, zeile in enumerate(zeilen)`
(src/parse_scene_transkript.py lines 52-75): the marker `elif` chain with
`continue`, then the volltext overwrite and the segment match. -/
def lineStep (st : PState) (z : List Char) : PState :=
  if trimChars z = vollMarker then { st with vlt := true }
  else if trimChars z = zeitMarker then { st with vlt := false, zst := true }
  else if List.isPrefixOf sepMarker z then st
  else segStep (volltextStep st z) z

/-- Result of a successful parse: metadata map, volltext, segments. -/
structure ParseResult where
  metadata : List (List Char × List Char)
  volltext : List Char
  segmente : List Segment
deriving DecidableEq, Repr

/-- `SceneTranskriptParser._parse_transkript`
(src/parse_scene_transkript.py lines 27-75).  `fileExists` models the
`self.transkript_datei.exists()` check; `content` is the file's text. -/
def parseTranskript (fileExists : Bool) (content : List Char) :
    Except PErr ParseResult :=
  if !fileExists then Except.error PErr.notFound
  else
    let zeilen := splitLines (trimChars content)
    match metaPass zeilen with
    | Except.error e => Except.error e
    | Except.ok md =>
      let st := zeilen.foldl lineStep ⟨false, false, [], []⟩
      Except.ok ⟨md, st.volltext, st.segs⟩

/-- One serialized segment line, `f"[{start} - {ende}] {text}"`
(src/parse_scene_transkript.py line 95). -/
def segLineOf (s : Segment) : List Char :=
  '[' :: (s.start ++ strLit " - " ++ s.ende ++ strLit "] " ++ s.text)

/-- Python `"\n".join(...)`. -/
def joinNl : List (List Char) → List Char
  | [] => []
  | [l] => l
  | l :: ls => l ++ '\n' :: joinNl ls

/-- `get_segmente_als_text` (src/parse_scene_transkript.py lines 86-96):
the serialized segment lines joined with newlines. -/
def get_segmente_als_text (segs : List Segment) : List Char :=
  joinNl (segs.map segLineOf)

/-! ## Image-name sanitizing, `parse_llm_response`
(src/dnd_image_generator.py lines 347-385) -/

/-- ASCII test for `re.sub(r'[^\x00-\x7F]', '_', ...)`. -/
def isAsciiCh (c : Char) : Bool := c.toNat ≤ 127

/-- Character class `[a-zA-Z0-9_]` of src/dnd_image_generator.py line 360. -/
def isAlnumU (c : Char) : Bool :=
  (('0' ≤ c && c ≤ '9') || ('a' ≤ c && c ≤ 'z') || ('A' ≤ c && c ≤ 'Z')
    || c = '_')

/-- The `^\*+\s*` alternative of `re.sub(r'^\*+\s*|\s*\*+$', '', ...)`
(src/dnd_image_generator.py line 351): a leading star run and the
whitespace after it are dropped. -/
def stripLeadStars (cs : List Char) : List Char :=
  match cs with
  | '*' :: _ => (cs.dropWhile (fun c => c = '*')).dropWhile isPySpace
  | _ => cs

/-- The `\s*\*+$` alternative of the same substitution: a trailing star
run and the whitespace before it are dropped. -/
def stripTrailStars (cs : List Char) : List Char :=
  match cs.reverse with
  | '*' :: _ =>
    ((cs.reverse.dropWhile (fun c => c = '*')).dropWhile isPySpace).reverse
  | _ => cs

/-- Skip past the first `')'`. -/
def dropThroughRparen : List Char → List Char
  | [] => []
  | ')' :: rest => rest
  | _ :: rest => dropThroughRparen rest

/-- Leftmost match of `\s*\([^)]*\)`: returns the text before the match
(with the whitespace run absorbed by `\s*` removed) and the text after the
closing parenthesis; `none` when no match exists. -/
def findParenMatch : List Char → List Char → Option (List Char × List Char)
  | _, [] => none
  | accRev, '(' :: rest =>
    if rest.contains ')' then
      some ((accRev.dropWhile isPySpace).reverse, dropThroughRparen rest)
    else findParenMatch ('(' :: accRev) rest
  | accRev, c :: rest => findParenMatch (c :: accRev) rest

/-- Global `re.sub(r'\s*\([^)]*\)', '', ...)`
(src/dnd_image_generator.py line 354), fuelled by the input length. -/
def removeParens : Nat → List Char → List Char
  | 0, cs => cs
  | fuel + 1, cs =>
    match findParenMatch [] cs with
    | none => cs
    | some (pre, post) => pre ++ removeParens fuel post

/-- All parenthesised groups removed. -/
def removeParensAll (cs : List Char) : List Char := removeParens cs.length cs

/-- Underscore-run collapsing, `re.sub(r'_{2,}', '_', ...)`
(src/dnd_image_generator.py line 363); the flag records whether the
previous kept character was an underscore. -/
def collapseAux : Bool → List Char → List Char
  | _, [] => []
  | prevU, c :: rest =>
    if c = '_' then
      if prevU then collapseAux true rest else '_' :: collapseAux true rest
    else c :: collapseAux false rest

/-- Collapse every underscore run to a single underscore. -/
def collapseUnd (cs : List Char) : List Char := collapseAux false cs

/-- Python `s.strip('_')`. -/
def stripUnderscores (cs : List Char) : List Char :=
  ((cs.dropWhile (fun c => c = '_')).reverse.dropWhile
    (fun c => c = '_')).reverse

/-- The whole name-cleaning cascade of `parse_llm_response`
(src/dnd_image_generator.py lines 351-375), up to the timestamp step:
star stripping, parenthesis removal, non-ASCII and non-alphanumeric
characters replaced by `'_'`, run collapsing, `strip('_')`, the
`generated_scene` fallback for fewer than 3 characters, and the
`[:35].rstrip('_')` truncation. -/
def clean_image_name (name : List Char) : List Char :=
  let s1 := stripTrailStars (stripLeadStars name)
  let s2 := removeParensAll s1
  let s3 := s2.map (fun c => if isAsciiCh c then c else '_')
  let s4 := s3.map (fun c => if isAlnumU c then c else '_')
  let s5 := collapseUnd s4
  let s6 := stripUnderscores s5
  let s7 := if s6.length < 3 then strLit "generated_scene" else s6
  if s7.length > 35 then
    ((s7.take 35).reverse.dropWhile (fun c => c = '_')).reverse
  else s7

/-- `f"{minute_timestamp}_{clean_image_name}"`
(src/dnd_image_generator.py line 380); the `HHMM` stamp produced by
`strftime` is passed in as a parameter. -/
def timestamped_name (stamp : List Char) (name : List Char) : List Char :=
  stamp ++ '_' :: clean_image_name name

/-- Modelled from the spec's words for comparison (claim C9): candidates
are sanitized by REMOVING bracketed groups, non-ASCII code points, and all
characters that are neither alphanumeric nor underscore, collapsing
underscore runs, trimming to at most 35 characters and prefixing the
stamp. -/
def claim_removal_name (stamp : List Char) (name : List Char) : List Char :=
  stamp ++ '_' ::
    (collapseUnd
      ((removeParensAll name).filter isAsciiCh |>.filter isAlnumU)).take 35

/-! ## Image client (`img_gen.generate_img`, src/img_gen.py lines 32-119)
and the rendering retry loop of `process_new_transcript`
(src/scene_visualizer_runner.py lines 505-612). -/

/-- What one call to the image service can observe over the wire
(configuration assumed loadable, as in a configured deployment). -/
inductive WireEvent where
  /-- `socket.error` at connect or I/O: the flag records whether the OS
  error text contains `"Connection refused"`. -/
  | noConnect (refused : Bool)
  /-- `socket.timeout`. -/
  | timeoutEv
  /-- `readline()` returned an empty string. -/
  | emptyResponse
  /-- The response line was not valid JSON. -/
  | badJson
  /-- A JSON response; `hasError` records whether it carries an
  `"error"` key, `payload` is the raw line. -/
  | jsonResp (hasError : Bool) (payload : String)
deriving DecidableEq, Repr

/-- The exceptions `generate_img` can raise, as seen by its caller; for
`ConnectionError` the flag records whether `str(e)` contains
`"Connection refused"`. -/
inductive ExcKind where
  | connectionError (refused : Bool) (msg : String)
  | valueError (msg : String)
deriving DecidableEq, Repr

/-- Return value of `generate_img`: the parsed response dict, with the
presence of the `"error"` key made explicit. -/
structure ImgResponse where
  hasError : Bool
  payload : String
deriving DecidableEq, Repr

/-- `img_gen.generate_img` (src/img_gen.py lines 32-119): empty response
and unparsable JSON raise `ValueError` (lines 77-79, 104-107);
`socket.timeout` and `socket.error` raise `ConnectionError`
(lines 109-114); a JSON response is returned EVEN when it contains an
`"error"` key (lines 86-88). -/
def generate_img : WireEvent → Except ExcKind ImgResponse
  | WireEvent.noConnect refused =>
    Except.error (ExcKind.connectionError refused
      (if refused then
        "Verbindung zum Service fehlgeschlagen: Connection refused"
      else "Verbindung zum Service fehlgeschlagen"))
  | WireEvent.timeoutEv =>
    Except.error (ExcKind.connectionError false "Socket timeout beim Service")
  | WireEvent.emptyResponse =>
    Except.error (ExcKind.valueError "Empty response from service")
  | WireEvent.badJson =>
    Except.error (ExcKind.valueError "Ungültige Antwort vom Service erhalten.")
  | WireEvent.jsonResp hasErr p => Except.ok ⟨hasErr, p⟩

/-- `max_retries = 3` (src/scene_visualizer_runner.py line 535). -/
def max_retries : Nat := 3

/-- `retry_delay = 10` seconds (src/scene_visualizer_runner.py line 536). -/
def retry_delay : Nat := 10

/-- Observable outcome of the rendering phase of
`process_new_transcript`. -/
structure RunResult where
  /-- The success return at line 578 was reached. -/
  completed : Bool
  /-- `<scene>_metadata.json` was written (lines 549-568). -/
  metadataWritten : Bool
  /-- The stale-error deletion branch ran (lines 572-576). -/
  errorDeleted : Bool
  /-- The image server produced the image file (true exactly for a
  non-error response). -/
  imageByServer : Bool
  /-- Number of `generate_img` calls actually made. -/
  attemptsUsed : Nat
  /-- `generation_attempts` recorded in the metadata (line 564). -/
  generation_attempts : Option Nat
  /-- Durations of the `time.sleep(retry_delay)` calls, in order. -/
  sleeps : List Nat
  /-- `failed_attempts` recorded in `<scene>_error.json` (line 604). -/
  failed_attempts : Option Nat
  /-- The `error` field of `<scene>_error.json`: `str(e)` of the last
  caught exception (line 599). -/
  errorMsg : Option String
deriving DecidableEq, Repr

/-- The terminal failure path, src/scene_visualizer_runner.py
lines 594-607: `<scene>_error.json` is written with
`failed_attempts = max_retries` regardless of how many attempts ran. -/
def mkFailed (calls : Nat) (sleeps : List Nat) (msg : Option String) :
    RunResult :=
  { completed := false, metadataWritten := false, errorDeleted := false,
    imageByServer := false, attemptsUsed := calls,
    generation_attempts := none, sleeps := sleeps,
    failed_attempts := some max_retries, errorMsg := msg }

/-- The `for attempt in range(max_retries)` loop with its `try/except`
(src/scene_visualizer_runner.py lines 538-592), driven by the list of
per-attempt wire events.  On a returned response (error-carrying or not)
the success path runs: metadata write, stale error deletion, `return`.
A `ConnectionError` containing `"Connection refused"` sleeps and retries
unless this was the last attempt; every other exception breaks. -/
def renderLoop : List WireEvent → Nat → List Nat → Option String → RunResult
  | [], calls, sleeps, lastMsg => mkFailed calls sleeps lastMsg
  | ev :: rest, calls, sleeps, _ =>
    match generate_img ev with
    | Except.ok resp =>
      { completed := true, metadataWritten := true, errorDeleted := true,
        imageByServer := !resp.hasError, attemptsUsed := calls + 1,
        generation_attempts := some (calls + 1), sleeps := sleeps,
        failed_attempts := none, errorMsg := none }
    | Except.error (ExcKind.connectionError refused msg) =>
      if refused then
        match rest with
        | [] => mkFailed (calls + 1) sleeps (some msg)
        | _ :: _ =>
          renderLoop rest (calls + 1) (sleeps ++ [retry_delay]) (some msg)
      else mkFailed (calls + 1) sleeps (some msg)
    | Except.error (ExcKind.valueError msg) =>
      mkFailed (calls + 1) sleeps (some msg)

/-- Per-scene artifact presence in the output directory. -/
structure SceneFiles where
  metadata : Bool
  image : Bool
  error : Bool
deriving DecidableEq, Repr

/-- Effect of one `process_new_transcript` run on the scene's artifacts:
the success path writes the metadata file and deletes any error file
(lines 549-578, image written by the server only for a non-error
response); the failure path writes the error file and touches nothing
else (lines 594-607). -/
def apply_run (s : SceneFiles) (r : RunResult) : SceneFiles :=
  if r.completed then
    { metadata := true, image := s.image || r.imageByServer, error := false }
  else { s with error := true }

/-- The rendering phase of `process_new_transcript`
(src/scene_visualizer_runner.py lines 534-607) as a transformer of the
scene's artifact state, with the wire behaviour of attempt `n` given by
`events n`. -/
def process_new_transcript (events : Nat → WireEvent) (s : SceneFiles) :
    SceneFiles × RunResult :=
  let r := renderLoop ((List.range max_retries).map events) 0 [] none
  (apply_run s r, r)

/-! ## Tracking persistence (src/scene_visualizer_runner.py
lines 340-341 and 193-194): the write path of the tracking store. -/

/-- Primitive filesystem operations relevant to the persist path. -/
inductive FsOp where
  /-- `open(path, 'w')`: truncate the file. -/
  | trunc (path : String)
  /-- `json.dump(..., f)`: write the serialized data. -/
  | writeAll (path : String) (data : String)
  /-- An `os.fsync`. -/
  | fsyncOp (path : String)
  /-- An `os.rename`/`os.replace`. -/
  | renameOp (src : String) (dst : String)
deriving DecidableEq, Repr

/-- The tracking file name (src/scene_visualizer_runner.py line 61). -/
def trackingPath : String := "transkript_tracking.json"

/-- The persist of `_sync_tracking_with_filesystem`
(src/scene_visualizer_runner.py lines 340-341):
`with open(self.tracking_file, 'w', ...) as f: json.dump(tracking_data, f)`
— a truncating open of the target followed by an in-place write. -/
def tracking_persist_ops (data : String) : List FsOp :=
  [FsOp.trunc trackingPath, FsOp.writeAll trackingPath data]

/-- Content of the tracking file after executing a list of operations. -/
def contentsAfter (old : String) (ops : List FsOp) : String :=
  ops.foldl
    (fun cur op =>
      match op with
      | FsOp.trunc p => if p = trackingPath then "" else cur
      | FsOp.writeAll p d => if p = trackingPath then d else cur
      | FsOp.fsyncOp _ => cur
      | FsOp.renameOp _ dst => if dst = trackingPath then "" ++ cur else cur)
    old

/-- The tracking-file contents observable if the process is interrupted
after any prefix of the operation list. -/
def statesAfterPrefixes (old : String) (ops : List FsOp) : List String :=
  (List.range (ops.length + 1)).map (fun k => contentsAfter old (ops.take k))

/-- Is the operation a rename? -/
def isRenameOp : FsOp → Bool
  | FsOp.renameOp _ _ => true
  | _ => false

/-- Modelled from the spec's words for comparison (claim C4): an atomic
persist serializes to a temporary file in the same directory, fsyncs it,
and renames it over the target. -/
def claim_atomic_persist (ops : List FsOp) (target : String) : Bool :=
  match ops with
  | [FsOp.writeAll t _, FsOp.fsyncOp t', FsOp.renameOp s dst] =>
    decide (t ≠ target) && decide (t' = t) && decide (s = t) &&
      decide (dst = target)
  | _ => false

/-! ## Tracking repair (src/scene_visualizer_runner.py lines 382-395,
182-216, 218-370): `_repair_tracking` and `_initialize_tracking`. -/

/-- Tracking-store state used by the reconciler
(src/scene_visualizer_runner.py, the `tracking_data` JSON object). -/
structure TrackRecord where
  size : Nat
  modified : String
  hash : String
  status : String
  last_seen : String
  detected_at : Option String := none
  modified_at : Option String := none
  previous_status : Option String := none
  details : Option String := none
deriving DecidableEq, Repr

/-- The top-level tracking object: `transcripts`, `last_updated`,
`status`, `sync_count` (src/scene_visualizer_runner.py lines 187-191,
336-338). -/
structure Tracking where
  transcripts : List (String × TrackRecord)
  last_updated : String
  status : String
  sync_count : Nat
deriving DecidableEq, Repr

/-- On-disk content of the tracking file: either a parsable tracking
object or corrupt bytes on which `json.load` raises. -/
inductive TrackContent where
  | valid (t : Tracking)
  | corrupt (raw : String)
deriving DecidableEq, Repr

/-- The freshly initialized tracking object written by
`_initialize_tracking` (src/scene_visualizer_runner.py lines 187-191). -/
def freshTracking (now : String) : Tracking :=
  { transcripts := [], last_updated := now, status := "initialized",
    sync_count := 0 }

/-- Filesystem state relevant to repair: the tracking file and its
`.error_backup` sibling (each `none` when absent). -/
structure RepairState where
  tracking : Option TrackContent
  backup : Option TrackContent
deriving DecidableEq, Repr

/-- `_repair_tracking` (src/scene_visualizer_runner.py lines 382-395)
followed by the `_initialize_tracking` it calls (lines 182-216) and the
corrupt-load branch of `_sync_tracking_with_filesystem` (lines 225-231,
360-370).  The backup is made with `shutil.copy2` (line 390), so the
original file REMAINS; `_initialize_tracking` writes a fresh file only
`if not self.tracking_file.exists()` (line 185); when the still-present
file is corrupt, the `json.load` inside the subsequent sync raises and
its handler calls `_repair_tracking` again (line 368), modelled with
`fuel` bounding that recursion. -/
def repair_tracking (now : String) : Nat → RepairState → RepairState
  | fuel, s =>
    let s1 :=
      match s.tracking with
      | some c => { s with backup := some c }
      | none => s
    let s2 :=
      if s1.tracking.isNone then
        { s1 with tracking := some (TrackContent.valid (freshTracking now)) }
      else s1
    match s2.tracking, fuel with
    | some (TrackContent.corrupt _), fuel' + 1 => repair_tracking now fuel' s2
    | _, _ => s2

/-! ## Reconciliation (src/scene_visualizer_runner.py lines 218-358):
`_sync_tracking_with_filesystem`. -/

/-- One scanned file: `size`, `modified` and `hash` as computed at
src/scene_visualizer_runner.py lines 244-252. -/
structure ScanFile where
  size : Nat
  modified : String
  hash : String
deriving DecidableEq, Repr

/-- Assoc lookup (Python `filename in tracking_data["transcripts"]` plus
access). -/
def lookupRec (m : List (String × TrackRecord)) (k : String) :
    Option TrackRecord :=
  match m with
  | [] => none
  | (k', v) :: rest => if k' = k then some v else lookupRec rest k

/-- Assoc update with Python-dict semantics: replace in place, append
when the key is new. -/
def updateRec (m : List (String × TrackRecord)) (k : String)
    (v : TrackRecord) : List (String × TrackRecord) :=
  match m with
  | [] => [(k, v)]
  | (k', v') :: rest =>
    if k' = k then (k, v) :: rest else (k', v') :: updateRec rest k v

/-- The `file_info` dict built for every scanned file
(src/scene_visualizer_runner.py lines 245-252). -/
def file_info_of (now : String) (f : ScanFile) : TrackRecord :=
  { size := f.size, modified := f.modified, hash := f.hash,
    status := "detected", last_seen := now }

/-- One iteration of `for filename, file_info in current_files.items()`
(src/scene_visualizer_runner.py lines 276-322): insert new files
(`completed` when outputs already exist, else `new`), re-insert changed
files as `modified` with `previous_status`, refresh `last_seen`
otherwise.  The Bool is the `updated` flag. -/
def syncStepFile (hasOutput : String → Bool) (now : String)
    (acc : List (String × TrackRecord) × Bool) (e : String × ScanFile) :
    List (String × TrackRecord) × Bool :=
  match lookupRec acc.1 e.1 with
  | none =>
    let fi := file_info_of now e.2
    let fi :=
      if hasOutput e.1 then
        { fi with
          status := "completed"
          detected_at := some now
          details := some "Output bereits vorhanden" }
      else
        { fi with
          status := "new"
          detected_at := some now
          details := some "Bereit zur Verarbeitung" }
    (updateRec acc.1 e.1 fi, true)
  | some old =>
    if old.hash ≠ e.2.hash then
      let fi :=
        { file_info_of now e.2 with
          status := "modified"
          previous_status := some old.status
          modified_at := some now }
      (updateRec acc.1 e.1 fi, true)
    else (updateRec acc.1 e.1 { old with last_seen := now }, acc.2)

/-- `_sync_tracking_with_filesystem` (src/scene_visualizer_runner.py
lines 218-358) on a loaded tracking object: the per-file loop, the
removal loop (lines 324-332), and the conditional persist
(lines 334-341).  Returns the PERSISTED tracking (the previous object
when nothing changed, since the save only happens `if updated`) together
with the `updated` flag. -/
def sync_tracking (hasOutput : String → Bool) (now : String)
    (fs : List (String × ScanFile)) (t : Tracking) : Tracking × Bool :=
  let step := fs.foldl (syncStepFile hasOutput now) (t.transcripts, false)
  let names := fs.map Prod.fst
  let removed := step.1.any (fun p => !(names.contains p.1))
  let ts2 := step.1.filter (fun p => names.contains p.1)
  if step.2 || removed then
    ({ transcripts := ts2, last_updated := now, status := "active",
       sync_count := t.sync_count + 1 }, true)
  else (t, false)

/-! ## Claim-side characterizations -/

/-- The lines strictly after the first marker line (the timestamped
section). -/
def afterMarker : List (List Char) → List (List Char)
  | [] => []
  | l :: ls => if trimChars l = zeitMarker then ls else afterMarker ls

/-- The segment a line contributes: the regex captures with the text
group stripped. -/
def segOf (z : List Char) : Option Segment :=
  (matchSegment z).map (fun p => ⟨p.1, p.2.1, trimChars p.2.2⟩)

/-- Modelled from the spec's words for comparison (claim C6): the
segments of a transcript are exactly those lines of the timestamped
section that match the segment pattern, in file order. -/
def claim_segments (content : List Char) : List Segment :=
  (afterMarker (splitLines (trimChars content))).filterMap segOf

/-! ## Lemmas on the character-level helpers -/

theorem dropWhile_head_false {p : Char → Bool} :
    ∀ {l : List Char} {c r}, l.dropWhile p = c :: r → p c = false := by
  intro l
  induction l with
  | nil => intro c r h; simp [List.dropWhile] at h
  | cons x xs ih =>
    intro c r h
    by_cases hx : p x
    · rw [List.dropWhile_cons_of_pos hx] at h
      exact ih h
    · rw [List.dropWhile_cons_of_neg hx] at h
      cases h
      exact Bool.of_not_eq_true hx

theorem dropWhile_append_last {p : Char → Bool} {c : Char}
    (hc : p c = false) :
    ∀ l : List Char, ∃ r, (l ++ [c]).dropWhile p = r ++ [c] := by
  intro l
  induction l with
  | nil =>
    refine ⟨[], ?_⟩
    simp [List.dropWhile_cons_of_neg, hc]
  | cons x xs ih =>
    by_cases hx : p x
    · obtain ⟨r, hr⟩ := ih
      exact ⟨r, by simpa [List.dropWhile_cons_of_pos hx] using hr⟩
    · exact ⟨x :: xs, by simp [List.dropWhile_cons_of_neg hx]⟩

/-- Trimming a list whose head is not whitespace keeps that head. -/
theorem trimChars_cons_nonspace {c : Char} (hc : isPySpace c = false)
    (cs : List Char) : ∃ r, trimChars (c :: cs) = c :: r := by
  unfold trimChars
  rw [List.dropWhile_cons_of_neg (by simp [hc])]
  obtain ⟨r, hr⟩ := dropWhile_append_last (p := isPySpace) hc cs.reverse
  refine ⟨r.reverse, ?_⟩
  rw [show (c :: cs).reverse = cs.reverse ++ [c] by simp, hr]
  simp

/-- A line contributing a segment starts with `'['`. -/
theorem matchSegment_eq_some_head {z : List Char} {p}
    (h : matchSegment z = some p) : ∃ r, z = '[' :: r := by
  unfold matchSegment at h
  cases z with
  | nil => simp [headIs] at h
  | cons x r =>
    by_cases hx : x = '['
    · exact ⟨r, by rw [hx]⟩
    · simp [headIs, hx] at h

theorem segOf_eq_some_head {z : List Char} {s}
    (h : segOf z = some s) : ∃ r, z = '[' :: r := by
  unfold segOf at h
  cases hm : matchSegment z with
  | none => rw [hm] at h; simp at h
  | some p => exact matchSegment_eq_some_head hm

/-- The trim of a line whose head is neither whitespace nor a marker head
is nonempty and differs from both section markers. -/
theorem trim_cons_ne_markers {c : Char} (hc : isPySpace c = false)
    (hV : c ≠ 'V') (hZ : c ≠ 'Z') (r : List Char) :
    trimChars (c :: r) ≠ [] ∧ trimChars (c :: r) ≠ strLit "VOLLTEXT:" ∧
    trimChars (c :: r) ≠ zeitMarker := by
  obtain ⟨r', hr'⟩ := trimChars_cons_nonspace hc r
  rw [hr']
  refine ⟨by simp, ?_, ?_⟩
  · intro h
    rw [show strLit "VOLLTEXT:" = 'V' :: strLit "OLLTEXT:" from rfl] at h
    exact hV (List.head_eq_of_cons_eq h)
  · intro h
    rw [show zeitMarker = 'Z' :: strLit "EITGESTEMPELTE SEGMENTE:" from rfl]
      at h
    exact hZ (List.head_eq_of_cons_eq h)

/-- A line that is not bracket-headed contributes no segment. -/
theorem segOf_eq_none_of_not_lbracket {z : List Char}
    (h : ∀ r, z ≠ '[' :: r) : segOf z = none := by
  cases hs : segOf z with
  | none => rfl
  | some s =>
    obtain ⟨r, hr⟩ := segOf_eq_some_head hs
    exact absurd hr (h r)

/-- An all-whitespace (or empty) line contributes no segment. -/
theorem segOf_eq_none_of_trim_nil {z : List Char}
    (h : trimChars z = []) : segOf z = none := by
  refine segOf_eq_none_of_not_lbracket (fun r hr => ?_)
  subst hr
  exact (@trim_cons_ne_markers '[' (by decide) (by decide) (by decide) r).1 h

/-- A line trimming to the VOLLTEXT marker contributes no segment. -/
theorem segOf_eq_none_of_trim_voll {z : List Char}
    (h : trimChars z = strLit "VOLLTEXT:") : segOf z = none := by
  refine segOf_eq_none_of_not_lbracket (fun r hr => ?_)
  subst hr
  exact
    (@trim_cons_ne_markers '[' (by decide) (by decide) (by decide) r).2.1 h

/-- A line trimming to the segment marker contributes no segment. -/
theorem segOf_eq_none_of_trim_zeit {z : List Char}
    (h : trimChars z = zeitMarker) : segOf z = none := by
  refine segOf_eq_none_of_not_lbracket (fun r hr => ?_)
  subst hr
  exact
    (@trim_cons_ne_markers '[' (by decide) (by decide) (by decide) r).2.2 h

/-- A separator line (`=====` prefix) is equals-headed. -/
theorem eq_head_of_isPrefixOf_sep {z : List Char}
    (h : List.isPrefixOf (strLit "=====") z = true) : ∃ r, z = '=' :: r := by
  cases z with
  | nil => simp [strLit, List.isPrefixOf] at h
  | cons x xs =>
    rw [show strLit "=====" = '=' :: strLit "====" from rfl] at h
    simp only [List.isPrefixOf, Bool.and_eq_true, beq_iff_eq] at h
    exact ⟨xs, by rw [h.1]⟩

theorem volltextStep_zst {st : PState} {z : List Char} :
    (volltextStep st z).zst = st.zst := by
  unfold volltextStep
  by_cases hv : st.vlt ∧ trimChars z ≠ []
  · rw [if_pos hv]
  · rw [if_neg hv]

theorem volltextStep_segs {st : PState} {z : List Char} :
    (volltextStep st z).segs = st.segs := by
  unfold volltextStep
  by_cases hv : st.vlt ∧ trimChars z ≠ []
  · rw [if_pos hv]
  · rw [if_neg hv]

theorem segStep_zst {st : PState} {z : List Char} :
    (segStep st z).zst = st.zst := by
  unfold segStep
  by_cases hz : st.zst ∧ trimChars z ≠ []
  · rw [if_pos hz]; cases matchSegment z <;> rfl
  · rw [if_neg hz]

theorem segStep_segs_of_zst {st : PState} {z : List Char}
    (hst : st.zst = true) :
    (segStep st z).segs = st.segs ++ (segOf z).toList := by
  unfold segStep
  by_cases h4 : trimChars z = []
  · rw [if_neg (by simp [h4]), segOf_eq_none_of_trim_nil h4]
    simp
  · rw [if_pos ⟨hst, h4⟩]
    cases hm : matchSegment z <;> simp [segOf, hm]

theorem segStep_segs_of_not_zst {st : PState} {z : List Char}
    (hst : st.zst = false) :
    (segStep st z).segs = st.segs := by
  unfold segStep
  rw [if_neg (by simp [hst])]

theorem lineStep_eq_voll {st : PState} {z : List Char}
    (h : trimChars z = vollMarker) :
    lineStep st z = { st with vlt := true } := by
  unfold lineStep
  rw [if_pos h]

theorem lineStep_eq_zeit {st : PState} {z : List Char}
    (h : trimChars z = zeitMarker) :
    lineStep st z = { st with vlt := false, zst := true } := by
  unfold lineStep
  rw [if_neg (by rw [h]; decide), if_pos h]

theorem lineStep_eq_sep {st : PState} {z : List Char}
    (h1 : trimChars z ≠ vollMarker) (h2 : trimChars z ≠ zeitMarker)
    (h3 : List.isPrefixOf sepMarker z = true) :
    lineStep st z = st := by
  unfold lineStep
  rw [if_neg h1, if_neg h2, if_pos h3]

theorem lineStep_eq_tail {st : PState} {z : List Char}
    (h1 : trimChars z ≠ vollMarker) (h2 : trimChars z ≠ zeitMarker)
    (h3 : ¬List.isPrefixOf sepMarker z = true) :
    lineStep st z = segStep (volltextStep st z) z := by
  unfold lineStep
  rw [if_neg h1, if_neg h2, if_neg h3]

theorem lineStep_zst_of_true {st : PState} {z : List Char}
    (hst : st.zst = true) : (lineStep st z).zst = true := by
  by_cases h1 : trimChars z = vollMarker
  · rw [lineStep_eq_voll h1]; exact hst
  · by_cases h2 : trimChars z = zeitMarker
    · rw [lineStep_eq_zeit h2]
    · by_cases h3 : List.isPrefixOf sepMarker z = true
      · rw [lineStep_eq_sep h1 h2 h3]; exact hst
      · rw [lineStep_eq_tail h1 h2 h3, segStep_zst, volltextStep_zst]
        exact hst

theorem lineStep_zst_of_false {st : PState} {z : List Char}
    (hst : st.zst = false) (h2 : trimChars z ≠ zeitMarker) :
    (lineStep st z).zst = false := by
  by_cases h1 : trimChars z = vollMarker
  · rw [lineStep_eq_voll h1]; exact hst
  · by_cases h3 : List.isPrefixOf sepMarker z = true
    · rw [lineStep_eq_sep h1 h2 h3]; exact hst
    · rw [lineStep_eq_tail h1 h2 h3, segStep_zst, volltextStep_zst]
      exact hst

/-- With the section flag set, a line appends exactly its
`segOf`-contribution. -/
theorem lineStep_segs_of_zst {st : PState} {z : List Char}
    (hst : st.zst = true) :
    (lineStep st z).segs = st.segs ++ (segOf z).toList := by
  by_cases h1 : trimChars z = vollMarker
  · rw [lineStep_eq_voll h1, segOf_eq_none_of_trim_voll h1]; simp
  · by_cases h2 : trimChars z = zeitMarker
    · rw [lineStep_eq_zeit h2, segOf_eq_none_of_trim_zeit h2]; simp
    · by_cases h3 : List.isPrefixOf sepMarker z = true
      · obtain ⟨r, hr⟩ := eq_head_of_isPrefixOf_sep h3
        have hseg : segOf z = none := by
          refine segOf_eq_none_of_not_lbracket (fun r' hr' => ?_)
          rw [hr] at hr'
          exact absurd (List.head_eq_of_cons_eq hr') (by decide)
        rw [lineStep_eq_sep h1 h2 h3, hseg]; simp
      · rw [lineStep_eq_tail h1 h2 h3,
          segStep_segs_of_zst (by rw [volltextStep_zst]; exact hst),
          volltextStep_segs]

/-- With the section flag cleared, a line appends no segment. -/
theorem lineStep_segs_of_not_zst {st : PState} {z : List Char}
    (hst : st.zst = false) :
    (lineStep st z).segs = st.segs := by
  by_cases h1 : trimChars z = vollMarker
  · rw [lineStep_eq_voll h1]
  · by_cases h2 : trimChars z = zeitMarker
    · rw [lineStep_eq_zeit h2]
    · by_cases h3 : List.isPrefixOf sepMarker z = true
      · rw [lineStep_eq_sep h1 h2 h3]
      · rw [lineStep_eq_tail h1 h2 h3,
          segStep_segs_of_not_zst (by rw [volltextStep_zst]; exact hst),
          volltextStep_segs]

/-- Inside the timestamped section, the scan appends exactly the
`segOf`-contributions of the remaining lines. -/
theorem foldl_lineStep_zst (zeilen : List (List Char)) :
    ∀ st : PState, st.zst = true →
      (zeilen.foldl lineStep st).segs = st.segs ++ zeilen.filterMap segOf := by
  induction zeilen with
  | nil => intro st _; simp
  | cons z rest ih =>
    intro st hst
    rw [List.foldl_cons, ih _ (lineStep_zst_of_true hst),
      lineStep_segs_of_zst hst]
    cases hs : segOf z <;> simp [List.filterMap_cons, hs]

/-- Before the marker, the scan collects exactly the contributions of the
lines after the first marker. -/
theorem foldl_lineStep_preMarker (zeilen : List (List Char)) :
    ∀ st : PState, st.zst = false →
      (zeilen.foldl lineStep st).segs =
        st.segs ++ (afterMarker zeilen).filterMap segOf := by
  induction zeilen with
  | nil => intro st _; simp [afterMarker]
  | cons z rest ih =>
    intro st hst
    rw [List.foldl_cons]
    by_cases h2 : trimChars z = zeitMarker
    · rw [lineStep_eq_zeit h2, foldl_lineStep_zst rest _ rfl]
      simp [afterMarker, h2]
    · rw [show afterMarker (z :: rest) = afterMarker rest from by
        rw [show afterMarker (z :: rest) =
            (if trimChars z = zeitMarker then rest else afterMarker rest)
          from rfl, if_neg h2]]
      rw [ih _ (lineStep_zst_of_false hst h2)]
      congr 1
      exact lineStep_segs_of_not_zst hst

/-! ## Line splitting and trimming lemmas -/

theorem splitLines_ne_nil : ∀ l : List Char, splitLines l ≠ [] := by
  intro l
  induction l with
  | nil => simp [splitLines]
  | cons c rest ih =>
    unfold splitLines
    cases hs : splitLines rest with
    | nil => exact absurd hs ih
    | cons x xs => by_cases hc : c = '\n' <;> simp [hc]

theorem splitLines_cons (c : Char) (rest : List Char) :
    splitLines (c :: rest) =
      match splitLines rest with
      | [] => [[]]
      | l :: ls => if c = '\n' then [] :: l :: ls else (c :: l) :: ls := rfl

theorem splitLines_append_newline {a : List Char} (ha : '\n' ∉ a)
    (b : List Char) : splitLines (a ++ '\n' :: b) = a :: splitLines b := by
  induction a with
  | nil =>
    rw [List.nil_append, splitLines_cons]
    cases hs : splitLines b with
    | nil => exact absurd hs (splitLines_ne_nil b)
    | cons x xs => simp [← hs]
  | cons c a' ih =>
    have hc : c ≠ '\n' := fun h => ha (by simp [h])
    have ha' : '\n' ∉ a' := fun h => ha (List.mem_cons_of_mem _ h)
    rw [List.cons_append, splitLines_cons, ih ha']
    simp [hc]

theorem splitLines_no_newline {a : List Char} (ha : '\n' ∉ a) :
    splitLines a = [a] := by
  induction a with
  | nil => rfl
  | cons c a' ih =>
    have hc : c ≠ '\n' := fun h => ha (by simp [h])
    have ha' : '\n' ∉ a' := fun h => ha (List.mem_cons_of_mem _ h)
    rw [splitLines_cons, ih ha']
    simp [hc]

/-- A list whose first and last characters are not whitespace is fixed by
trimming. -/
theorem trimChars_eq_self {l : List Char}
    (h1 : ∀ c, l.head? = some c → isPySpace c = false)
    (h2 : ∀ c, l.getLast? = some c → isPySpace c = false) :
    trimChars l = l := by
  cases l with
  | nil => rfl
  | cons a as =>
    have ha : isPySpace a = false := h1 a rfl
    unfold trimChars
    rw [List.dropWhile_cons_of_neg (by simp [ha])]
    cases hr : (a :: as).reverse with
    | nil => simp at hr
    | cons d t =>
      have hd : isPySpace d = false := by
        apply h2
        rw [← List.head?_reverse, hr]
        rfl
      have hrr : (d :: t).reverse = a :: as := by
        rw [← hr, List.reverse_reverse]
      rw [List.dropWhile_cons_of_neg (by simp [hd]), hrr]

theorem trimChars_head?_nonspace {l : List Char} {c : Char}
    (h : (trimChars l).head? = some c) : isPySpace c = false := by
  cases hy : l.dropWhile isPySpace with
  | nil => unfold trimChars at h; rw [hy] at h; simp at h
  | cons a t =>
    have ha := dropWhile_head_false hy
    unfold trimChars at h
    rw [hy] at h
    obtain ⟨r, hr⟩ := dropWhile_append_last ha t.reverse
    rw [show (a :: t).reverse = t.reverse ++ [a] by simp, hr] at h
    simp at h
    rw [← h]
    exact ha

theorem trimChars_getLast?_nonspace {l : List Char} {c : Char}
    (h : (trimChars l).getLast? = some c) : isPySpace c = false := by
  unfold trimChars at h
  rw [List.getLast?_reverse] at h
  cases hy : (l.dropWhile isPySpace).reverse.dropWhile isPySpace with
  | nil => rw [hy] at h; simp at h
  | cons a t =>
    have ha := dropWhile_head_false hy
    rw [hy] at h
    simp at h
    rw [← h]
    exact ha

theorem trimChars_idem (l : List Char) :
    trimChars (trimChars l) = trimChars l :=
  trimChars_eq_self (fun _ hc => trimChars_head?_nonspace hc)
    (fun _ hc => trimChars_getLast?_nonspace hc)

theorem mem_of_mem_trimChars {c : Char} {l : List Char}
    (h : c ∈ trimChars l) : c ∈ l := by
  unfold trimChars at h
  rw [List.mem_reverse] at h
  have h2 := (List.dropWhile_sublist (l := (l.dropWhile isPySpace).reverse)
    isPySpace).subset h
  rw [List.mem_reverse] at h2
  exact (List.dropWhile_sublist isPySpace).subset h2

/-! ## Inversion and construction lemmas for the segment pattern -/

/-- The shape of a `\d{2}:\d{2}\.\d{2}` capture. -/
def tsOk (ts : List Char) : Prop :=
  ∃ a b d e g h', ts = [a, b, ':', d, e, '.', g, h'] ∧
    a.isDigit = true ∧ b.isDigit = true ∧ d.isDigit = true ∧
    e.isDigit = true ∧ g.isDigit = true ∧ h'.isDigit = true

theorem headIs_inv {c : Char} {z r : List Char} (h : headIs c z = some r) :
    z = c :: r := by
  cases z with
  | nil => simp [headIs] at h
  | cons x xs =>
    simp only [headIs] at h
    by_cases hx : x = c
    · rw [if_pos hx] at h
      cases h
      rw [hx]
    · rw [if_neg hx] at h; cases h

theorem digitStep_inv {z : List Char} {p : Char × List Char}
    (h : digitStep z = some p) : z = p.1 :: p.2 ∧ p.1.isDigit = true := by
  cases z with
  | nil => simp [digitStep] at h
  | cons x xs =>
    simp only [digitStep] at h
    by_cases hx : x.isDigit = true
    · rw [if_pos hx] at h
      cases h
      exact ⟨rfl, hx⟩
    · rw [if_neg hx] at h; cases h

theorem matchTs_inv {x : List Char} {p : List Char × List Char}
    (h : matchTs x = some p) : x = p.1 ++ p.2 ∧ tsOk p.1 := by
  unfold matchTs at h
  simp only [Option.bind_eq_some] at h
  obtain ⟨p1, h1, p2, h2, r3, h3, p4, h4, p5, h5, r6, h6, p7, h7, p8, h8,
    hfin⟩ := h
  obtain ⟨e1, d1⟩ := digitStep_inv h1
  obtain ⟨e2, d2⟩ := digitStep_inv h2
  have e3 := headIs_inv h3
  obtain ⟨e4, d4⟩ := digitStep_inv h4
  obtain ⟨e5, d5⟩ := digitStep_inv h5
  have e6 := headIs_inv h6
  obtain ⟨e7, d7⟩ := digitStep_inv h7
  obtain ⟨e8, d8⟩ := digitStep_inv h8
  cases hfin
  constructor
  · rw [e1, e2, e3, e4, e5, e6, e7, e8]
    rfl
  · exact ⟨p1.1, p2.1, p4.1, p5.1, p7.1, p8.1, rfl, d1, d2, d4, d5, d7, d8⟩

theorem matchTs_build {ts : List Char} (h : tsOk ts) (r : List Char) :
    matchTs (ts ++ r) = some (ts, r) := by
  obtain ⟨a, b, d, e, g, h', rfl, da, db, dd, de, dg, dh⟩ := h
  simp [matchTs, digitStep, headIs, da, db, dd, de, dg, dh]

theorem tsOk_no_newline {ts : List Char} (h : tsOk ts) : '\n' ∉ ts := by
  obtain ⟨a, b, d, e, g, h', rfl, da, db, dd, de, dg, dh⟩ := h
  intro hm
  simp only [List.mem_cons, List.not_mem_nil, or_false] at hm
  rcases hm with h | h | h | h | h | h | h | h
  · rw [← h] at da; exact absurd da (by decide)
  · rw [← h] at db; exact absurd db (by decide)
  · exact absurd h (by decide)
  · rw [← h] at dd; exact absurd dd (by decide)
  · rw [← h] at de; exact absurd de (by decide)
  · exact absurd h (by decide)
  · rw [← h] at dg; exact absurd dg (by decide)
  · rw [← h] at dh; exact absurd dh (by decide)

theorem matchSegment_build {a b t : List Char} (ha : tsOk a) (hb : tsOk b)
    (ht : t ≠ []) (hn : '\n' ∉ t) :
    matchSegment
      ('[' :: (a ++ (strLit " - " ++ (b ++ (strLit "] " ++ t))))) =
      some (a, b, t) := by
  unfold matchSegment
  rw [show headIs '['
        ('[' :: (a ++ (strLit " - " ++ (b ++ (strLit "] " ++ t))))) =
      some (a ++ (strLit " - " ++ (b ++ (strLit "] " ++ t)))) by
      simp [headIs]]
  rw [Option.some_bind, matchTs_build ha, Option.some_bind]
  rw [show strLit " - " ++ (b ++ (strLit "] " ++ t)) =
      ' ' :: '-' :: ' ' :: (b ++ (strLit "] " ++ t)) from rfl]
  rw [show headIs ' ' (' ' :: '-' :: ' ' :: (b ++ (strLit "] " ++ t))) =
      some ('-' :: ' ' :: (b ++ (strLit "] " ++ t))) by simp [headIs]]
  rw [Option.some_bind]
  rw [show headIs '-' ('-' :: ' ' :: (b ++ (strLit "] " ++ t))) =
      some (' ' :: (b ++ (strLit "] " ++ t))) by simp [headIs]]
  rw [Option.some_bind]
  rw [show headIs ' ' (' ' :: (b ++ (strLit "] " ++ t))) =
      some (b ++ (strLit "] " ++ t)) by simp [headIs]]
  rw [Option.some_bind, matchTs_build hb, Option.some_bind]
  rw [show strLit "] " ++ t = ']' :: ' ' :: t from rfl]
  rw [show headIs ']' (']' :: ' ' :: t) = some (' ' :: t) by simp [headIs]]
  rw [Option.some_bind]
  rw [show headIs ' ' (' ' :: t) = some t by simp [headIs]]
  rw [Option.some_bind]
  cases t with
  | nil => exact absurd rfl ht
  | cons c cr =>
    have hc : c ≠ '\n' := fun h => hn (by simp [h])
    simp only [if_neg hc]
    rw [List.takeWhile_eq_self_iff.mpr
      (fun x hx => by simp; exact fun hh => hn (hh ▸ hx))]

theorem matchSegment_inv {z : List Char}
    {q : List Char × List Char × List Char}
    (h : matchSegment z = some q) :
    tsOk q.1 ∧ tsOk q.2.1 ∧ q.2.2 ≠ [] ∧ '\n' ∉ q.2.2 := by
  unfold matchSegment at h
  simp only [Option.bind_eq_some] at h
  obtain ⟨r0, h0, q1, hq1, ra, hra, rb, hrb, r2, hr2, q2, hq2, rc, hrc, r4,
    hr4, hfin⟩ := h
  have t1 := (matchTs_inv hq1).2
  have t2 := (matchTs_inv hq2).2
  cases r4 with
  | nil => simp at hfin
  | cons c cr =>
    by_cases hc : c = '\n'
    · simp [hc] at hfin
    · simp only [hc, if_false, reduceIte] at hfin
      cases hfin
      refine ⟨t1, t2, ?_, ?_⟩
      · rw [List.takeWhile_cons_of_pos (by simp [hc])]
        simp
      · intro hm
        have hx := List.mem_takeWhile_imp hm
        simp at hx

/-- Shape invariant of every segment a parse can produce. -/
def segWF (s : Segment) : Prop :=
  tsOk s.start ∧ tsOk s.ende ∧ trimChars s.text = s.text ∧ '\n' ∉ s.text

theorem segOf_wf {z : List Char} {s : Segment} (h : segOf z = some s) :
    segWF s := by
  unfold segOf at h
  cases hm : matchSegment z with
  | none => rw [hm] at h; simp at h
  | some q =>
    rw [hm] at h
    simp only [Option.map_some'] at h
    cases h
    obtain ⟨t1, t2, tne, tnl⟩ := matchSegment_inv hm
    exact ⟨t1, t2, trimChars_idem _, fun hm' => tnl (mem_of_mem_trimChars hm')⟩

theorem lineStep_segs_wf {st : PState} {z : List Char}
    (h : ∀ s ∈ st.segs, segWF s) :
    ∀ s ∈ (lineStep st z).segs, segWF s := by
  cases hz : st.zst
  · rw [lineStep_segs_of_not_zst hz]; exact h
  · rw [lineStep_segs_of_zst hz]
    intro s hs
    rcases List.mem_append.mp hs with h1 | h2
    · exact h s h1
    · cases ho : segOf z with
      | none => rw [ho] at h2; simp at h2
      | some s' =>
        rw [ho] at h2
        simp at h2
        rw [h2]
        exact segOf_wf ho

theorem foldl_lineStep_wf (zeilen : List (List Char)) :
    ∀ st : PState, (∀ s ∈ st.segs, segWF s) →
      ∀ s ∈ (zeilen.foldl lineStep st).segs, segWF s := by
  induction zeilen with
  | nil => intro st h; exact h
  | cons z rest ih =>
    intro st h
    rw [List.foldl_cons]
    exact ih _ (lineStep_segs_wf h)

/-- Every segment of a successful parse satisfies the shape invariant. -/
theorem parse_segs_wf {c : List Char} {res : ParseResult}
    (h : parseTranskript true c = Except.ok res) :
    ∀ s ∈ res.segmente, segWF s := by
  unfold parseTranskript at h
  simp only [Bool.not_true, Bool.false_eq_true, if_false] at h
  cases hm : metaPass (splitLines (trimChars c)) with
  | error e => rw [hm] at h; cases h
  | ok md =>
    rw [hm] at h
    cases h
    exact foldl_lineStep_wf _ _ (by simp)

/-! ## Round-trip machinery -/

/-- The re-parsed document of claim C7: the serialized segments under the
documented section header. -/
def roundtripContent (segs : List Segment) : List Char :=
  zeitMarker ++ '\n' :: get_segmente_als_text segs

theorem joinNl_cons_cons (l l2 : List Char) (rest : List (List Char)) :
    joinNl (l :: l2 :: rest) = l ++ '\n' :: joinNl (l2 :: rest) := rfl

theorem joinNl_ne_nil {ls : List (List Char)} (h0 : ls ≠ [])
    (hne : ∀ l ∈ ls, l ≠ []) : joinNl ls ≠ [] := by
  cases ls with
  | nil => exact absurd rfl h0
  | cons l ls2 =>
    cases ls2 with
    | nil => exact hne l (by simp)
    | cons l2 rest =>
      rw [joinNl_cons_cons]
      intro hx
      rcases List.append_eq_nil.mp hx with ⟨_, h2⟩
      cases h2

theorem joinNl_getLast?_mem {ls : List (List Char)} (h0 : ls ≠ [])
    (hne : ∀ l ∈ ls, l ≠ []) :
    ∃ l ∈ ls, (joinNl ls).getLast? = l.getLast? := by
  induction ls with
  | nil => exact absurd rfl h0
  | cons l ls2 ih =>
    cases ls2 with
    | nil => exact ⟨l, by simp, rfl⟩
    | cons l2 rest =>
      have hJ : joinNl (l2 :: rest) ≠ [] :=
        joinNl_ne_nil (by simp) (fun l' hl' => hne l' (by simp [hl']))
      obtain ⟨l', hl', he⟩ :=
        ih (by simp) (fun l' hl' => hne l' (List.mem_cons_of_mem _ hl'))
      refine ⟨l', List.mem_cons_of_mem _ hl', ?_⟩
      rw [joinNl_cons_cons, List.getLast?_append_of_ne_nil _ (by simp),
        show ('\n' :: joinNl (l2 :: rest)) = ['\n'] ++ joinNl (l2 :: rest)
          from rfl,
        List.getLast?_append_of_ne_nil _ hJ, he]

theorem splitLines_joinNl {ls : List (List Char)} (h0 : ls ≠ [])
    (hnl : ∀ l ∈ ls, '\n' ∉ l) : splitLines (joinNl ls) = ls := by
  induction ls with
  | nil => exact absurd rfl h0
  | cons l ls2 ih =>
    cases ls2 with
    | nil => exact splitLines_no_newline (hnl l (by simp))
    | cons l2 rest =>
      rw [joinNl_cons_cons,
        splitLines_append_newline (hnl l (by simp)),
        ih (by simp) (fun l' hl' => hnl l' (List.mem_cons_of_mem _ hl'))]

theorem segLineOf_eq (s : Segment) :
    segLineOf s =
      '[' :: (s.start ++ (strLit " - " ++ (s.ende ++ (strLit "] " ++
        s.text)))) := by
  simp [segLineOf, List.append_assoc]

theorem segLineOf_no_newline {s : Segment} (h : segWF s) :
    '\n' ∉ segLineOf s := by
  rw [segLineOf_eq]
  intro hm
  simp only [List.mem_cons, List.mem_append] at hm
  rcases hm with h0 | h1 | h2 | h3 | h4 | h5
  · exact absurd h0 (by decide)
  · exact tsOk_no_newline h.1 h1
  · exact absurd h2 (by decide)
  · exact tsOk_no_newline h.2.1 h3
  · exact absurd h4 (by decide)
  · exact h.2.2.2 h5

theorem segLineOf_getLast? {s : Segment} (ht : s.text ≠ []) :
    (segLineOf s).getLast? = s.text.getLast? := by
  rw [segLineOf_eq]
  have h1n : strLit "] " ++ s.text ≠ [] := by
    rw [show strLit "] " ++ s.text = ']' :: (' ' :: s.text) from rfl]
    simp
  have h2n : s.ende ++ (strLit "] " ++ s.text) ≠ [] :=
    fun hx => h1n (List.append_eq_nil.mp hx).2
  have h3n : strLit " - " ++ (s.ende ++ (strLit "] " ++ s.text)) ≠ [] := by
    rw [show strLit " - " ++ (s.ende ++ (strLit "] " ++ s.text)) =
      ' ' :: ('-' :: (' ' :: (s.ende ++ (strLit "] " ++ s.text)))) from rfl]
    simp
  have h4n : s.start ++ (strLit " - " ++ (s.ende ++ (strLit "] " ++
      s.text))) ≠ [] :=
    fun hx => h3n (List.append_eq_nil.mp hx).2
  rw [show ('[' :: (s.start ++ (strLit " - " ++ (s.ende ++ (strLit "] " ++
        s.text))))) =
      ['['] ++ (s.start ++ (strLit " - " ++ (s.ende ++ (strLit "] " ++
        s.text)))) from rfl,
    List.getLast?_append_of_ne_nil _ h4n,
    List.getLast?_append_of_ne_nil _ h3n,
    show strLit " - " ++ (s.ende ++ (strLit "] " ++ s.text)) =
      [' ', '-', ' '] ++ (s.ende ++ (strLit "] " ++ s.text)) from rfl,
    List.getLast?_append_of_ne_nil _ h2n,
    List.getLast?_append_of_ne_nil _ h1n,
    show strLit "] " ++ s.text = [']', ' '] ++ s.text from rfl,
    List.getLast?_append_of_ne_nil _ ht]

theorem segOf_segLineOf {s : Segment} (hwf : segWF s) (ht : s.text ≠ []) :
    segOf (segLineOf s) = some s := by
  unfold segOf
  rw [segLineOf_eq, matchSegment_build hwf.1 hwf.2.1 ht hwf.2.2.2]
  simp only [Option.map_some']
  rw [hwf.2.2.1]

theorem filterMap_id_of_mem {α : Type} {f : α → Option α} :
    ∀ {l : List α}, (∀ a ∈ l, f a = some a) → l.filterMap f = l := by
  intro l
  induction l with
  | nil => intro _; rfl
  | cons a rest ih =>
    intro h
    rw [List.filterMap_cons, h a (List.mem_cons_self a rest),
      ih (fun a' ha' => h a' (List.mem_cons_of_mem _ ha'))]

theorem metaStep_lbracket (m : List (List Char × List Char))
    (r : List Char) : metaStep m ('[' :: r) = Except.ok m := rfl

theorem metaStep_zeitMarker (m : List (List Char × List Char)) :
    metaStep m zeitMarker = Except.ok m := rfl

theorem metaStep_vollMarker (m : List (List Char × List Char)) :
    metaStep m vollMarker = Except.ok m := rfl

theorem foldlM_metaStep_ok :
    ∀ (ls : List (List Char)) (m : List (List Char × List Char)),
      (∀ l ∈ ls, ∀ m', metaStep m' l = Except.ok m') →
      ls.foldlM metaStep m = Except.ok m := by
  intro ls
  induction ls with
  | nil => intro m _; rfl
  | cons l rest ih =>
    intro m hm
    rw [show List.foldlM metaStep m (l :: rest) =
        metaStep m l >>= fun m' => List.foldlM metaStep m' rest from rfl,
      hm l (List.mem_cons_self l rest) m]
    exact ih m (fun l' hl' => hm l' (List.mem_cons_of_mem _ hl'))

theorem metaPass_ok {zeilen : List (List Char)}
    (h : ∀ l ∈ zeilen, ∀ m, metaStep m l = Except.ok m) :
    metaPass zeilen = Except.ok [] := by
  unfold metaPass
  exact foldlM_metaStep_ok _ []
    (fun l hl => h l (List.mem_of_mem_take hl))

/-- A parse with a successful metadata pass returns the scan result. -/
theorem parse_of_metaPass_ok {c : List Char}
    {md : List (List Char × List Char)}
    (h : metaPass (splitLines (trimChars c)) = Except.ok md) :
    parseTranskript true c = Except.ok
      ⟨md,
        ((splitLines (trimChars c)).foldl lineStep
          ⟨false, false, [], []⟩).volltext,
        ((splitLines (trimChars c)).foldl lineStep
          ⟨false, false, [], []⟩).segs⟩ := by
  unfold parseTranskript
  simp only [Bool.not_true, Bool.false_eq_true, if_false]
  rw [h]

/-- Successful parses produce exactly the claim-side segment list. -/
theorem parse_segments_characterization {c : List Char} {res : ParseResult}
    (h : parseTranskript true c = Except.ok res) :
    res.segmente = claim_segments c := by
  unfold parseTranskript at h
  simp only [Bool.not_true, Bool.false_eq_true, if_false] at h
  cases hm : metaPass (splitLines (trimChars c)) with
  | error e => rw [hm] at h; cases h
  | ok md =>
    rw [hm] at h
    cases h
    exact foldl_lineStep_preMarker _ _ rfl

/-- Re-parsing the serialized segments of a well-formed segment list with
nonempty texts recovers exactly that list. -/
theorem parse_roundtrip_segments {segs : List Segment}
    (hwf : ∀ s ∈ segs, segWF s) (hne : ∀ s ∈ segs, s.text ≠ []) :
    ∃ res', parseTranskript true (roundtripContent segs) = Except.ok res' ∧
      res'.segmente = segs := by
  cases segs with
  | nil => exact ⟨⟨[], [], []⟩, rfl, rfl⟩
  | cons s0 rest =>
    have hLne : ∀ l ∈ (s0 :: rest).map segLineOf, l ≠ [] := by
      intro l hl
      obtain ⟨s, _, rfl⟩ := List.mem_map.mp hl
      rw [segLineOf_eq]
      simp
    have hLnl : ∀ l ∈ (s0 :: rest).map segLineOf, '\n' ∉ l := by
      intro l hl
      obtain ⟨s, hs, rfl⟩ := List.mem_map.mp hl
      exact segLineOf_no_newline (hwf s hs)
    have hJne : joinNl ((s0 :: rest).map segLineOf) ≠ [] :=
      joinNl_ne_nil (by simp) hLne
    have hlast : ∀ c,
        (roundtripContent (s0 :: rest)).getLast? = some c →
        isPySpace c = false := by
      intro c hc
      rw [roundtripContent, get_segmente_als_text,
        List.getLast?_append_of_ne_nil _ (by simp),
        show ('\n' :: joinNl ((s0 :: rest).map segLineOf)) =
          ['\n'] ++ joinNl ((s0 :: rest).map segLineOf) from rfl,
        List.getLast?_append_of_ne_nil _ hJne] at hc
      obtain ⟨l, hl, he⟩ := joinNl_getLast?_mem (by simp) hLne
      rw [he] at hc
      obtain ⟨s, hs, rfl⟩ := List.mem_map.mp hl
      rw [segLineOf_getLast? (hne s hs)] at hc
      rw [← (hwf s hs).2.2.1] at hc
      exact trimChars_getLast?_nonspace hc
    have htrim : trimChars (roundtripContent (s0 :: rest)) =
        roundtripContent (s0 :: rest) := by
      refine trimChars_eq_self ?_ hlast
      intro c hc
      rw [show roundtripContent (s0 :: rest) =
          'Z' :: (strLit "EITGESTEMPELTE SEGMENTE:" ++
            ('\n' :: get_segmente_als_text (s0 :: rest))) from rfl] at hc
      cases hc
      decide
    have hsplit : splitLines (roundtripContent (s0 :: rest)) =
        zeitMarker :: (s0 :: rest).map segLineOf := by
      rw [roundtripContent, splitLines_append_newline (by decide),
        get_segmente_als_text, splitLines_joinNl (by simp) hLnl]
    have hmeta : metaPass (splitLines (trimChars
        (roundtripContent (s0 :: rest)))) = Except.ok [] := by
      rw [htrim, hsplit]
      refine metaPass_ok ?_
      intro l hl m
      rcases List.mem_cons.mp hl with rfl | hl2
      · exact metaStep_zeitMarker m
      · obtain ⟨s, _, rfl⟩ := List.mem_map.mp hl2
        exact metaStep_lbracket m _
    refine ⟨_, parse_of_metaPass_ok hmeta, ?_⟩
    show ((splitLines (trimChars (roundtripContent (s0 :: rest)))).foldl
      lineStep ⟨false, false, [], []⟩).segs = s0 :: rest
    rw [htrim, hsplit, List.foldl_cons, lineStep_eq_zeit (by decide),
      foldl_lineStep_zst _ _ rfl, List.nil_append, List.filterMap_map]
    refine filterMap_id_of_mem ?_
    intro s hs
    show segOf (segLineOf s) = some s
    exact segOf_segLineOf (hwf s hs) (hne s hs)

/-! ## Reconciliation lemmas (claim C8) -/

/-- The key/hash skeleton of the transcript map: everything the branch
decisions of `_sync_tracking_with_filesystem` depend on. -/
def hashSkel (m : List (String × TrackRecord)) : List (String × String) :=
  m.map (fun p => (p.1, p.2.hash))

/-- Assoc lookup on a skeleton. -/
def lookupSkel : List (String × String) → String → Option String
  | [], _ => none
  | (k', v) :: rest, k => if k' = k then some v else lookupSkel rest k

theorem hashSkel_cons (e : String × TrackRecord)
    (rest : List (String × TrackRecord)) :
    hashSkel (e :: rest) = (e.1, e.2.hash) :: hashSkel rest := rfl

theorem lookupSkel_cons (k' : String) (v : String)
    (rest : List (String × String)) (k : String) :
    lookupSkel ((k', v) :: rest) k =
      if k' = k then some v else lookupSkel rest k := rfl

theorem lookupRec_cons (e : String × TrackRecord)
    (rest : List (String × TrackRecord)) (k : String) :
    lookupRec (e :: rest) k =
      if e.1 = k then some e.2 else lookupRec rest k := by
  cases e
  rfl

theorem lookupRec_hash (m : List (String × TrackRecord)) (k : String) :
    (lookupRec m k).map TrackRecord.hash = lookupSkel (hashSkel m) k := by
  induction m with
  | nil => rfl
  | cons e rest ih =>
    rw [lookupRec_cons, hashSkel_cons, lookupSkel_cons]
    by_cases hk : e.1 = k
    · rw [if_pos hk, if_pos hk]
      rfl
    · rw [if_neg hk, if_neg hk]
      exact ih

theorem lookupRec_updateRec_self (m : List (String × TrackRecord))
    (k : String) (v : TrackRecord) :
    lookupRec (updateRec m k v) k = some v := by
  induction m with
  | nil => simp [updateRec, lookupRec]
  | cons e rest ih =>
    unfold updateRec
    by_cases hk : e.1 = k
    · rw [if_pos hk]; simp [lookupRec]
    · rw [if_neg hk]
      unfold lookupRec
      rw [if_neg hk]
      exact ih

theorem lookupRec_updateRec_ne (m : List (String × TrackRecord))
    {k k' : String} (v : TrackRecord) (h : k ≠ k') :
    lookupRec (updateRec m k v) k' = lookupRec m k' := by
  induction m with
  | nil => simp [updateRec, lookupRec, h]
  | cons e rest ih =>
    unfold updateRec
    by_cases hk : e.1 = k
    · rw [if_pos hk]
      unfold lookupRec
      rw [if_neg h, if_neg (hk ▸ h)]
    · rw [if_neg hk]
      unfold lookupRec
      by_cases he : e.1 = k'
      · rw [if_pos he, if_pos he]
      · rw [if_neg he, if_neg he]
        exact ih

theorem hashSkel_updateRec {m : List (String × TrackRecord)} {k : String}
    {old v : TrackRecord} (hl : lookupRec m k = some old)
    (hh : v.hash = old.hash) :
    hashSkel (updateRec m k v) = hashSkel m := by
  induction m with
  | nil => simp [lookupRec] at hl
  | cons e rest ih =>
    unfold updateRec
    unfold lookupRec at hl
    by_cases hk : e.1 = k
    · rw [if_pos hk] at hl ⊢
      cases hl
      simp [hashSkel, hk, hh]
    · rw [if_neg hk] at hl ⊢
      rw [hashSkel_cons, hashSkel_cons, ih hl]

/-- The unchanged-file branch, src/scene_visualizer_runner.py
lines 320-322. -/
theorem syncStep_unchanged {ho : String → Bool} {now : String}
    {acc : List (String × TrackRecord) × Bool} {e : String × ScanFile}
    {old : TrackRecord} (hl : lookupRec acc.1 e.1 = some old)
    (hh : old.hash = e.2.hash) :
    syncStepFile ho now acc e =
      (updateRec acc.1 e.1 { old with last_seen := now }, acc.2) := by
  unfold syncStepFile
  rw [hl]
  simp only [hh, ne_eq, not_true_eq_false, if_false, reduceIte]

theorem syncStep_flag_true {ho : String → Bool} {now : String}
    {acc : List (String × TrackRecord) × Bool} {e : String × ScanFile}
    (h : acc.2 = true) : (syncStepFile ho now acc e).2 = true := by
  unfold syncStepFile
  cases lookupRec acc.1 e.1 with
  | none => rfl
  | some old =>
    dsimp only
    by_cases hh : old.hash ≠ e.2.hash
    · rw [if_pos hh]
    · rw [if_neg hh]
      exact h

theorem fold_flag_true {ho : String → Bool} {now : String}
    (fs : List (String × ScanFile)) :
    ∀ acc, acc.2 = true →
      (fs.foldl (syncStepFile ho now) acc).2 = true := by
  induction fs with
  | nil => intro acc h; exact h
  | cons e fs' ih =>
    intro acc h
    rw [List.foldl_cons]
    exact ih _ (syncStep_flag_true h)

/-- On a store whose skeleton already agrees with the scan, the per-file
loop keeps the `updated` flag down and the skeleton fixed. -/
theorem fold_synced {ho : String → Bool} {now : String}
    (T : List (String × TrackRecord)) :
    ∀ (fs : List (String × ScanFile))
      (acc : List (String × TrackRecord) × Bool),
      hashSkel acc.1 = hashSkel T → acc.2 = false →
      (∀ p ∈ fs, lookupSkel (hashSkel T) p.1 = some p.2.hash) →
      (fs.foldl (syncStepFile ho now) acc).2 = false ∧
      hashSkel (fs.foldl (syncStepFile ho now) acc).1 = hashSkel T := by
  intro fs
  induction fs with
  | nil => intro acc h1 h2 _; exact ⟨h2, h1⟩
  | cons e fs' ih =>
    intro acc hskel hflag hfs
    have hle : lookupSkel (hashSkel T) e.1 = some e.2.hash :=
      hfs e (List.mem_cons_self e fs')
    have hme : (lookupRec acc.1 e.1).map TrackRecord.hash =
        some e.2.hash := by
      rw [lookupRec_hash, hskel, hle]
    cases hl : lookupRec acc.1 e.1 with
    | none => rw [hl] at hme; simp at hme
    | some old =>
      rw [hl] at hme
      have hh : old.hash = e.2.hash := by
        simpa using hme
      rw [List.foldl_cons, syncStep_unchanged hl hh]
      refine ih _ ?_ hflag
        (fun p hp => hfs p (List.mem_cons_of_mem _ hp))
      show hashSkel (updateRec acc.1 e.1 { old with last_seen := now }) =
        hashSkel T
      have hsk : hashSkel (updateRec acc.1 e.1
          { old with last_seen := now }) = hashSkel acc.1 :=
        hashSkel_updateRec hl rfl
      rw [hsk]
      exact hskel

/-- Conversely, a pass that ends with the flag down found every scanned
file unchanged. -/
theorem fold_flag_false_inv {ho : String → Bool} {now : String} :
    ∀ (fs : List (String × ScanFile))
      (acc : List (String × TrackRecord) × Bool),
      (fs.foldl (syncStepFile ho now) acc).2 = false →
      acc.2 = false ∧
      hashSkel (fs.foldl (syncStepFile ho now) acc).1 = hashSkel acc.1 ∧
      (∀ p ∈ fs, lookupSkel (hashSkel acc.1) p.1 = some p.2.hash) := by
  intro fs
  induction fs with
  | nil => intro acc h; exact ⟨h, rfl, by simp⟩
  | cons e fs' ih =>
    intro acc h
    rw [List.foldl_cons] at h
    cases hl : lookupRec acc.1 e.1 with
    | none =>
      have ht : (syncStepFile ho now acc e).2 = true := by
        unfold syncStepFile
        rw [hl]
      rw [fold_flag_true fs' _ ht] at h
      cases h
    | some old =>
      by_cases hh : old.hash = e.2.hash
      · rw [syncStep_unchanged hl hh] at h
        obtain ⟨hf, hskel', hfs'⟩ := ih _ h
        have hsk : hashSkel (updateRec acc.1 e.1
            { old with last_seen := now }) = hashSkel acc.1 :=
          hashSkel_updateRec hl rfl
        refine ⟨hf, ?_, ?_⟩
        · rw [List.foldl_cons, syncStep_unchanged hl hh, hskel']
          exact hsk
        · intro p hp
          rcases List.mem_cons.mp hp with rfl | hp'
          · rw [← lookupRec_hash, hl, Option.map_some', hh]
          · rw [← hsk]
            exact hfs' p hp'
      · have ht : (syncStepFile ho now acc e).2 = true := by
          unfold syncStepFile
          rw [hl]
          dsimp only
          rw [if_pos hh]
        rw [fold_flag_true fs' _ ht] at h
        cases h

theorem lookupRec_filter_contains {m : List (String × TrackRecord)}
    {names : List String} {k : String} (hk : names.contains k = true) :
    lookupRec (m.filter (fun p => names.contains p.1)) k =
      lookupRec m k := by
  induction m with
  | nil => rfl
  | cons e rest ih =>
    rw [List.filter_cons]
    by_cases hp : names.contains e.1 = true
    · rw [if_pos hp, lookupRec_cons, lookupRec_cons]
      by_cases he : e.1 = k
      · rw [if_pos he, if_pos he]
      · rw [if_neg he, if_neg he]
        exact ih
    · have hne : e.1 ≠ k := fun h => hp (h ▸ hk)
      rw [if_neg hp, lookupRec_cons, if_neg hne]
      exact ih

theorem fold_lookup_frozen {ho : String → Bool} {now : String}
    (fs : List (String × ScanFile)) {k : String}
    (hk : k ∉ fs.map Prod.fst) :
    ∀ acc, lookupRec (fs.foldl (syncStepFile ho now) acc).1 k =
      lookupRec acc.1 k := by
  induction fs with
  | nil => intro acc; rfl
  | cons e fs' ih =>
    intro acc
    have hek : e.1 ≠ k := fun h => hk (by simp [h])
    rw [List.foldl_cons,
      ih (fun h => hk (List.mem_cons_of_mem _ h)) _]
    unfold syncStepFile
    cases lookupRec acc.1 e.1 with
    | none =>
      by_cases hb : ho e.1 = true <;>
        simp [hb, lookupRec_updateRec_ne _ _ hek]
    | some old =>
      by_cases hh : old.hash ≠ e.2.hash <;>
        simp [hh, lookupRec_updateRec_ne _ _ hek]

theorem syncStep_lookup_self {ho : String → Bool} {now : String}
    (acc : List (String × TrackRecord) × Bool) (e : String × ScanFile) :
    ∃ r, lookupRec (syncStepFile ho now acc e).1 e.1 = some r ∧
      r.hash = e.2.hash := by
  unfold syncStepFile
  cases hl : lookupRec acc.1 e.1 with
  | none =>
    by_cases hb : ho e.1 = true <;>
      simp [hb, lookupRec_updateRec_self, file_info_of]
  | some old =>
    dsimp only
    by_cases hh : old.hash ≠ e.2.hash
    · rw [if_pos hh]
      exact ⟨_, lookupRec_updateRec_self _ _ _, rfl⟩
    · rw [if_neg hh]
      refine ⟨_, lookupRec_updateRec_self _ _ _, ?_⟩
      simpa using hh

/-- After one pass, every scanned file has a record carrying its scanned
hash. -/
theorem fold_hash_inv {ho : String → Bool} {now : String} :
    ∀ (fs : List (String × ScanFile))
      (acc : List (String × TrackRecord) × Bool),
      (fs.map Prod.fst).Nodup →
      ∀ p ∈ fs, ∃ r,
        lookupRec (fs.foldl (syncStepFile ho now) acc).1 p.1 = some r ∧
        r.hash = p.2.hash := by
  intro fs
  induction fs with
  | nil => intro acc _ p hp; cases hp
  | cons e fs' ih =>
    intro acc hnd p hp
    rw [List.foldl_cons]
    rcases List.mem_cons.mp hp with rfl | hp'
    · have hk : p.1 ∉ fs'.map Prod.fst := by
        have := hnd
        rw [List.map_cons, List.nodup_cons] at this
        exact this.1
      obtain ⟨r, hr, hh⟩ := syncStep_lookup_self acc p
      exact ⟨r, by rw [fold_lookup_frozen fs' hk _]; exact hr, hh⟩
    · have hnd' : (fs'.map Prod.fst).Nodup := by
        rw [List.map_cons, List.nodup_cons] at hnd
        exact hnd.2
      exact ih _ hnd' p hp'

/-- A store whose skeleton matches the scan and whose record names all
appear in the scan is left untouched and unpersisted by a sync pass. -/
theorem sync_tracking_synced {ho : String → Bool} {now : String}
    {fs : List (String × ScanFile)} {t : Tracking}
    (H1 : ∀ p ∈ fs, lookupSkel (hashSkel t.transcripts) p.1 =
      some p.2.hash)
    (H2 : ∀ k ∈ t.transcripts.map Prod.fst,
      (fs.map Prod.fst).contains k = true) :
    sync_tracking ho now fs t = (t, false) := by
  simp only [sync_tracking]
  obtain ⟨hflag, hskel⟩ :=
    fold_synced t.transcripts fs (t.transcripts, false) rfl rfl H1
  have hkeys : (fs.foldl (syncStepFile ho now)
      (t.transcripts, false)).1.map Prod.fst =
      t.transcripts.map Prod.fst := by
    have h1 := congrArg (List.map Prod.fst) hskel
    simpa [hashSkel, Function.comp] using h1
  have hrem : (fs.foldl (syncStepFile ho now)
      (t.transcripts, false)).1.any
      (fun p => !((fs.map Prod.fst).contains p.1)) = false := by
    rw [List.any_eq_false]
    intro p hp
    have hpk : p.1 ∈ t.transcripts.map Prod.fst := by
      rw [← hkeys]
      exact List.mem_map_of_mem Prod.fst hp
    rw [H2 p.1 hpk]
    simp
  rw [hflag, hrem]
  simp

/-- Key lists agree when the skeletons agree. -/
theorem map_fst_eq_of_hashSkel_eq {m m' : List (String × TrackRecord)}
    (h : hashSkel m = hashSkel m') :
    m.map Prod.fst = m'.map Prod.fst := by
  have h1 := congrArg (List.map Prod.fst) h
  simpa [hashSkel, Function.comp] using h1

/-- Running `_sync_tracking_with_filesystem` twice over an unchanged
scan: the second pass persists nothing and returns the first pass's
store unchanged. -/
theorem sync_second_pass (ho : String → Bool) (now now' : String)
    (fs : List (String × ScanFile)) (t : Tracking)
    (hnd : (fs.map Prod.fst).Nodup) :
    sync_tracking ho now' fs ((sync_tracking ho now fs t).1) =
      ((sync_tracking ho now fs t).1, false) := by
  by_cases hcond :
      ((fs.foldl (syncStepFile ho now) (t.transcripts, false)).2 ||
        (fs.foldl (syncStepFile ho now) (t.transcripts, false)).1.any
          (fun p => !((fs.map Prod.fst).contains p.1))) = true
  · have hp1 : sync_tracking ho now fs t =
        ({ transcripts :=
            (fs.foldl (syncStepFile ho now) (t.transcripts, false)).1.filter
              (fun p => (fs.map Prod.fst).contains p.1)
           last_updated := now
           status := "active"
           sync_count := t.sync_count + 1 }, true) := by
      simp only [sync_tracking]
      rw [if_pos hcond]
    rw [hp1]
    refine sync_tracking_synced ?_ ?_
    · intro p hp
      have hcp : (fs.map Prod.fst).contains p.1 = true :=
        List.elem_eq_true_of_mem (List.mem_map_of_mem Prod.fst hp)
      obtain ⟨r, hr, hh⟩ :=
        fold_hash_inv fs (t.transcripts, false) hnd p hp
      rw [← lookupRec_hash]
      show (lookupRec ((fs.foldl (syncStepFile ho now)
        (t.transcripts, false)).1.filter
          (fun q => (fs.map Prod.fst).contains q.1)) p.1).map
            TrackRecord.hash = some p.2.hash
      rw [lookupRec_filter_contains hcp, hr, Option.map_some', hh]
    · intro k hk
      obtain ⟨q, hq, rfl⟩ := List.mem_map.mp hk
      exact (List.mem_filter.mp hq).2
  · have hsplit : (fs.foldl (syncStepFile ho now)
        (t.transcripts, false)).2 = false ∧
        (fs.foldl (syncStepFile ho now) (t.transcripts, false)).1.any
          (fun p => !((fs.map Prod.fst).contains p.1)) = false := by
      constructor
      · cases hx : (fs.foldl (syncStepFile ho now)
            (t.transcripts, false)).2
        · rfl
        · exact absurd (by rw [hx]; rfl) hcond
      · cases hx : (fs.foldl (syncStepFile ho now)
            (t.transcripts, false)).1.any
            (fun p => !((fs.map Prod.fst).contains p.1))
        · rfl
        · exact absurd (by rw [hx]; simp) hcond
    have hp1 : sync_tracking ho now fs t = (t, false) := by
      simp only [sync_tracking]
      rw [if_neg hcond]
    rw [hp1]
    obtain ⟨hfl, hskel, hfs⟩ :=
      fold_flag_false_inv fs (t.transcripts, false) hsplit.1
    refine sync_tracking_synced (fun p hp => hfs p hp) ?_
    intro k hk
    have hkeys := map_fst_eq_of_hashSkel_eq hskel
    rw [List.any_eq_false] at hsplit
    have hk' : k ∈ (fs.foldl (syncStepFile ho now)
        (t.transcripts, false)).1.map Prod.fst := by
      rw [hkeys]
      exact hk
    obtain ⟨q, hq, rfl⟩ := List.mem_map.mp hk'
    have := hsplit.2 q hq
    cases hx : (fs.map Prod.fst).contains q.1
    · exact absurd (by rw [hx]; rfl) this
    · rfl

/-! ## Sanitizer lemmas (claim C9) -/

theorem mem_collapseAux :
    ∀ {cs : List Char} {b : Bool} {c : Char}, c ∈ collapseAux b cs →
      c ∈ cs := by
  intro cs
  induction cs with
  | nil => intro b c h; simp [collapseAux] at h
  | cons x rest ih =>
    intro b c h
    simp only [collapseAux] at h
    by_cases hx : x = '_'
    · rw [if_pos hx] at h
      by_cases hb : b = true
      · rw [if_pos hb] at h
        exact List.mem_cons_of_mem _ (ih h)
      · rw [if_neg hb] at h
        rcases List.mem_cons.mp h with rfl | h2
        · rw [hx]
          exact List.mem_cons_self _ _
        · exact List.mem_cons_of_mem _ (ih h2)
    · rw [if_neg hx] at h
      rcases List.mem_cons.mp h with rfl | h2
      · exact List.mem_cons_self _ _
      · exact List.mem_cons_of_mem _ (ih h2)

theorem mem_stripUnderscores {c : Char} {cs : List Char}
    (h : c ∈ stripUnderscores cs) : c ∈ cs := by
  unfold stripUnderscores at h
  rw [List.mem_reverse] at h
  have h2 := (List.dropWhile_sublist
    (l := (cs.dropWhile (fun x => x = '_')).reverse)
    (fun x => x = '_')).subset h
  rw [List.mem_reverse] at h2
  exact (List.dropWhile_sublist (fun x => x = '_')).subset h2

/-- The `[^a-zA-Z0-9_]` substitution leaves only identifier characters. -/
theorem alnum_after_map (s3 : List Char) :
    ∀ c ∈ s3.map (fun c => if isAlnumU c then c else '_'),
      isAlnumU c = true := by
  intro c hc
  obtain ⟨x, _, rfl⟩ := List.mem_map.mp hc
  by_cases hx : isAlnumU x = true
  · rwa [if_pos hx]
  · rw [if_neg hx]
    decide

/-- The cleaned name before the length cap. -/
def sanitize_s6 (name : List Char) : List Char :=
  stripUnderscores (collapseUnd
    ((((stripTrailStars (stripLeadStars name) |> removeParensAll).map
      (fun c => if isAsciiCh c then c else '_')).map
      (fun c => if isAlnumU c then c else '_'))))

/-- The cleaned name after the `generated_scene` fallback. -/
def sanitize_s7 (name : List Char) : List Char :=
  if (sanitize_s6 name).length < 3 then strLit "generated_scene"
  else sanitize_s6 name

theorem clean_image_name_eq (name : List Char) :
    clean_image_name name =
      if (sanitize_s7 name).length > 35 then
        (((sanitize_s7 name).take 35).reverse.dropWhile
          (fun c => c = '_')).reverse
      else sanitize_s7 name := rfl

theorem sanitize_s7_alnum (name : List Char) :
    ∀ c ∈ sanitize_s7 name, isAlnumU c = true := by
  unfold sanitize_s7
  by_cases h : (sanitize_s6 name).length < 3
  · rw [if_pos h]
    decide
  · rw [if_neg h]
    intro c hc
    exact alnum_after_map _ _
      (mem_collapseAux (mem_stripUnderscores hc))

theorem clean_image_name_alnum (name : List Char) :
    ∀ c ∈ clean_image_name name, isAlnumU c = true := by
  rw [clean_image_name_eq]
  by_cases h : (sanitize_s7 name).length > 35
  · rw [if_pos h]
    intro c hc
    rw [List.mem_reverse] at hc
    have h2 := (List.dropWhile_sublist
      (l := ((sanitize_s7 name).take 35).reverse)
      (fun x => x = '_')).subset hc
    rw [List.mem_reverse] at h2
    exact sanitize_s7_alnum name c (List.take_subset 35 _ h2)
  · rw [if_neg h]
    exact sanitize_s7_alnum name

theorem clean_image_name_length (name : List Char) :
    (clean_image_name name).length ≤ 35 := by
  rw [clean_image_name_eq]
  by_cases h : (sanitize_s7 name).length > 35
  · rw [if_pos h, List.length_reverse]
    have h1 := (List.dropWhile_sublist
      (l := ((sanitize_s7 name).take 35).reverse)
      (fun x => x = '_')).length_le
    rw [List.length_reverse, List.length_take] at h1
    exact h1.trans (min_le_left _ _)
  · rw [if_neg h]
    omega

/-! ## Claim theorems -/

/-- C1 (counterexample): a successful run leaves metadata and image in
place; a later failed run of the same scene writes the error file
without removing them, so `_error.json` coexists with both
`_metadata.json` and `_image.png` — the claimed invariant is violated on
a reachable outcome. -/
theorem c1_counterexample :
    (process_new_transcript (fun _ => WireEvent.jsonResp false "F")
      ⟨false, false, false⟩).1 = ⟨true, true, false⟩ ∧
    (process_new_transcript (fun _ => WireEvent.noConnect true)
      ((process_new_transcript (fun _ => WireEvent.jsonResp false "F")
        ⟨false, false, false⟩).1)).1 = ⟨true, true, true⟩ :=
  ⟨rfl, rfl⟩

/-- C1 (amended): the success path of `process_new_transcript` writes
the metadata file (the server having produced the image) and deletes
any stale error file, and the failure path writes only the error file —
leaving any previously produced metadata and image files in place, so
the mutual-exclusion invariant holds only for the success direction. -/
theorem c1_error_artifact_amended (events : Nat → WireEvent)
    (s : SceneFiles) :
    (process_new_transcript events s).1 =
      if (process_new_transcript events s).2.completed then
        ⟨true, s.image ||
          (process_new_transcript events s).2.imageByServer, false⟩
      else ⟨s.metadata, s.image, true⟩ := by
  unfold process_new_transcript apply_run
  by_cases hc : (renderLoop ((List.range max_retries).map events) 0 []
      none).completed = true <;>
    simp [hc]

/-- C2: when every attempt's connection is refused, the processor makes
exactly `max_retries` attempts with a `retry_delay` sleep between
consecutive attempts, then writes the error file with
`failed_attempts = max_retries`; no metadata or image is produced. -/
theorem c2_unreachable_retry_policy (events : Nat → WireEvent)
    (s : SceneFiles)
    (h : ∀ n, n < max_retries → events n = WireEvent.noConnect true) :
    (process_new_transcript events s).2.attemptsUsed = max_retries ∧
    (process_new_transcript events s).2.sleeps =
      List.replicate (max_retries - 1) retry_delay ∧
    (process_new_transcript events s).2.failed_attempts =
      some max_retries ∧
    (process_new_transcript events s).2.completed = false ∧
    (process_new_transcript events s).1.metadata = s.metadata ∧
    (process_new_transcript events s).1.image = s.image ∧
    (process_new_transcript events s).1.error = true := by
  have h0 := h 0 (by decide)
  have h1 := h 1 (by decide)
  have h2 := h 2 (by decide)
  have hl : (List.range max_retries).map events =
      [WireEvent.noConnect true, WireEvent.noConnect true,
        WireEvent.noConnect true] := by
    rw [show List.range max_retries = [0, 1, 2] from rfl,
      List.map_cons, List.map_cons, List.map_cons, List.map_nil,
      h0, h1, h2]
  unfold process_new_transcript
  rw [hl]
  exact ⟨rfl, rfl, rfl, rfl, rfl, rfl, rfl⟩

/-- C2 witness at a concrete run. -/
theorem c2_unreachable_retry_policy_witness :
    (process_new_transcript (fun _ => WireEvent.noConnect true)
      ⟨false, false, false⟩).2.attemptsUsed = max_retries ∧
    (process_new_transcript (fun _ => WireEvent.noConnect true)
      ⟨false, false, false⟩).2.sleeps =
      List.replicate (max_retries - 1) retry_delay ∧
    (process_new_transcript (fun _ => WireEvent.noConnect true)
      ⟨false, false, false⟩).2.failed_attempts = some max_retries ∧
    (process_new_transcript (fun _ => WireEvent.noConnect true)
      ⟨false, false, false⟩).2.completed = false ∧
    (process_new_transcript (fun _ => WireEvent.noConnect true)
      ⟨false, false, false⟩).1.metadata = false ∧
    (process_new_transcript (fun _ => WireEvent.noConnect true)
      ⟨false, false, false⟩).1.image = false ∧
    (process_new_transcript (fun _ => WireEvent.noConnect true)
      ⟨false, false, false⟩).1.error = true :=
  c2_unreachable_retry_policy (fun _ => WireEvent.noConnect true)
    ⟨false, false, false⟩ (fun _ _ => rfl)

/-- C3 (counterexample): a response carrying an `error` key is returned
by `generate_img` and the runner completes the scene: metadata is
written, a pre-existing error file is deleted, and no image exists —
the error response was treated as a successful completion. -/
theorem c3_counterexample :
    generate_img (WireEvent.jsonResp true "CUDA out of memory") =
      Except.ok ⟨true, "CUDA out of memory"⟩ ∧
    (process_new_transcript
      (fun _ => WireEvent.jsonResp true "CUDA out of memory")
      ⟨false, false, true⟩).2.completed = true ∧
    (process_new_transcript
      (fun _ => WireEvent.jsonResp true "CUDA out of memory")
      ⟨false, false, true⟩).1 = ⟨true, false, false⟩ :=
  ⟨rfl, rfl, rfl⟩

/-- C3 (amended): a ProtocolError (empty or unparsable response) is not
retried and the scene ends Failed with the raised reason recorded and
`failed_attempts = max_retries`; a ServerError response is also not
retried, but `generate_img` returns it as a normal result and the
processor treats it as a successful completion, writing metadata and
deleting any error file. -/
theorem c3_server_protocol_amended :
    (∀ (events : Nat → WireEvent) (s : SceneFiles) (p : String),
      events 0 = WireEvent.jsonResp true p →
        (process_new_transcript events s).2.completed = true ∧
        (process_new_transcript events s).2.attemptsUsed = 1 ∧
        (process_new_transcript events s).1.metadata = true ∧
        (process_new_transcript events s).1.error = false ∧
        (process_new_transcript events s).1.image = s.image) ∧
    (∀ (events : Nat → WireEvent) (s : SceneFiles),
      (events 0 = WireEvent.emptyResponse ∨
        events 0 = WireEvent.badJson) →
        (process_new_transcript events s).2.completed = false ∧
        (process_new_transcript events s).2.attemptsUsed = 1 ∧
        (process_new_transcript events s).2.sleeps = [] ∧
        (process_new_transcript events s).2.failed_attempts =
          some max_retries ∧
        (process_new_transcript events s).1.error = true ∧
        (process_new_transcript events s).1.metadata = s.metadata) := by
  constructor
  · intro events s p h0
    have hl : (List.range max_retries).map events =
        events 0 :: events 1 :: events 2 :: [] := rfl
    unfold process_new_transcript
    rw [hl, h0]
    exact ⟨rfl, rfl, rfl, rfl, Bool.or_false s.image⟩
  · intro events s h0
    have hl : (List.range max_retries).map events =
        events 0 :: events 1 :: events 2 :: [] := rfl
    unfold process_new_transcript
    rw [hl]
    rcases h0 with h0 | h0 <;> rw [h0] <;>
      exact ⟨rfl, rfl, rfl, rfl, rfl, rfl⟩

/-- C3 witness at concrete runs. -/
theorem c3_server_protocol_amended_witness :
    ((process_new_transcript (fun _ => WireEvent.jsonResp true "E")
      ⟨false, false, false⟩).2.completed = true ∧
    (process_new_transcript (fun _ => WireEvent.jsonResp true "E")
      ⟨false, false, false⟩).2.attemptsUsed = 1 ∧
    (process_new_transcript (fun _ => WireEvent.jsonResp true "E")
      ⟨false, false, false⟩).1.metadata = true ∧
    (process_new_transcript (fun _ => WireEvent.jsonResp true "E")
      ⟨false, false, false⟩).1.error = false ∧
    (process_new_transcript (fun _ => WireEvent.jsonResp true "E")
      ⟨false, false, false⟩).1.image = false) ∧
    ((process_new_transcript (fun _ => WireEvent.emptyResponse)
      ⟨false, false, false⟩).2.completed = false ∧
    (process_new_transcript (fun _ => WireEvent.emptyResponse)
      ⟨false, false, false⟩).2.attemptsUsed = 1 ∧
    (process_new_transcript (fun _ => WireEvent.emptyResponse)
      ⟨false, false, false⟩).2.sleeps = [] ∧
    (process_new_transcript (fun _ => WireEvent.emptyResponse)
      ⟨false, false, false⟩).2.failed_attempts = some max_retries ∧
    (process_new_transcript (fun _ => WireEvent.emptyResponse)
      ⟨false, false, false⟩).1.error = true ∧
    (process_new_transcript (fun _ => WireEvent.emptyResponse)
      ⟨false, false, false⟩).1.metadata = false) :=
  ⟨c3_server_protocol_amended.1 (fun _ => WireEvent.jsonResp true "E")
      ⟨false, false, false⟩ "E" rfl,
    c3_server_protocol_amended.2 (fun _ => WireEvent.emptyResponse)
      ⟨false, false, false⟩ (Or.inl rfl)⟩

/-- C4 (counterexample): the persist of the tracking store is a
truncating in-place write; interruption after the truncate exposes an
empty file that is neither the previous nor the new content, and the
operation trace contains no rename and does not follow the
temp-file-fsync-rename pattern the claim describes. -/
theorem c4_counterexample :
    statesAfterPrefixes "OLD" (tracking_persist_ops "NEW") =
      ["OLD", "", "NEW"] ∧
    (("" : String) == "OLD") = false ∧ (("" : String) == "NEW") = false ∧
    (tracking_persist_ops "NEW").all (fun op => !(isRenameOp op)) = true ∧
    claim_atomic_persist (tracking_persist_ops "NEW") trackingPath =
      false :=
  ⟨rfl, by decide, by decide, rfl, rfl⟩

/-- C4 (amended): every persist of the tracking store truncates
`transkript_tracking.json` in place and then writes the new serialized
data; the observable interrupted states are exactly the previous
content, the empty file, and the new content, with no temporary file,
fsync, or rename involved. -/
theorem c4_persist_not_atomic (old new : String) :
    statesAfterPrefixes old (tracking_persist_ops new) =
      [old, "", new] ∧
    (tracking_persist_ops new).all (fun op => !(isRenameOp op)) = true ∧
    claim_atomic_persist (tracking_persist_ops new) trackingPath =
      false :=
  ⟨rfl, rfl, rfl⟩

/-- C5: on a corrupt tracking file, `_repair_tracking` copies the
corrupt bytes to the `.error_backup` sibling but — because the copy
leaves the original in place and `_initialize_tracking` only writes a
fresh file when none exists — the tracking file still holds the same
corrupt content afterwards, for every recursion budget: the store is
never reinitialized. -/
theorem c5_repair_leaves_corrupt_file :
    ∀ (fuel : Nat) (b : Option TrackContent),
      repair_tracking "2025-01-01T00:00:00" fuel
        ⟨some (TrackContent.corrupt "NOT JSON"), b⟩ =
      ⟨some (TrackContent.corrupt "NOT JSON"),
        some (TrackContent.corrupt "NOT JSON")⟩ := by
  intro fuel
  induction fuel with
  | zero => intro b; rfl
  | succ n ih => intro b; exact ih _

/-- C8 (counterexample): after a first pass inserts the scanned file
(`sync_count = 1`), a second pass over the unchanged scan persists
nothing: `sync_count` stays 1 instead of being incremented. -/
theorem c8_counterexample :
    ((sync_tracking (fun _ => false) "n1"
      [("a_transkript.txt", ⟨5, "m1", "h1"⟩)]
      ⟨[], "t0", "initialized", 0⟩).1).sync_count = 1 ∧
    ((sync_tracking (fun _ => false) "n2"
      [("a_transkript.txt", ⟨5, "m1", "h1"⟩)]
      ((sync_tracking (fun _ => false) "n1"
        [("a_transkript.txt", ⟨5, "m1", "h1"⟩)]
        ⟨[], "t0", "initialized", 0⟩).1)).1).sync_count = 1 ∧
    ((((sync_tracking (fun _ => false) "n2"
      [("a_transkript.txt", ⟨5, "m1", "h1"⟩)]
      ((sync_tracking (fun _ => false) "n1"
        [("a_transkript.txt", ⟨5, "m1", "h1"⟩)]
        ⟨[], "t0", "initialized", 0⟩).1)).1).sync_count == 2)) =
      false := by
  refine ⟨rfl, rfl, ?_⟩
  decide

/-- C8 (amended): with no filesystem change, the second reconciliation
pass is a complete no-op on the persisted store: it writes nothing, so
the records and the `sync_count` are both unchanged (`last_seen` is
refreshed only in memory). -/
theorem c8_second_reconcile_noop (ho : String → Bool)
    (now now' : String) (fs : List (String × ScanFile)) (t : Tracking)
    (hnd : (fs.map Prod.fst).Nodup) :
    (sync_tracking ho now' fs ((sync_tracking ho now fs t).1)).1 =
      (sync_tracking ho now fs t).1 ∧
    (sync_tracking ho now' fs ((sync_tracking ho now fs t).1)).2 =
      false ∧
    ((sync_tracking ho now' fs
      ((sync_tracking ho now fs t).1)).1).sync_count =
      ((sync_tracking ho now fs t).1).sync_count := by
  have h := sync_second_pass ho now now' fs t hnd
  rw [h]
  exact ⟨rfl, rfl, rfl⟩

/-- C8 witness at a concrete store and scan. -/
theorem c8_second_reconcile_noop_witness :
    (sync_tracking (fun _ => false) "n2"
      [("a_transkript.txt", ⟨5, "m1", "h1"⟩)]
      ((sync_tracking (fun _ => false) "n1"
        [("a_transkript.txt", ⟨5, "m1", "h1"⟩)]
        ⟨[], "t0", "initialized", 0⟩).1)).1 =
      (sync_tracking (fun _ => false) "n1"
        [("a_transkript.txt", ⟨5, "m1", "h1"⟩)]
        ⟨[], "t0", "initialized", 0⟩).1 ∧
    (sync_tracking (fun _ => false) "n2"
      [("a_transkript.txt", ⟨5, "m1", "h1"⟩)]
      ((sync_tracking (fun _ => false) "n1"
        [("a_transkript.txt", ⟨5, "m1", "h1"⟩)]
        ⟨[], "t0", "initialized", 0⟩).1)).2 = false ∧
    ((sync_tracking (fun _ => false) "n2"
      [("a_transkript.txt", ⟨5, "m1", "h1"⟩)]
      ((sync_tracking (fun _ => false) "n1"
        [("a_transkript.txt", ⟨5, "m1", "h1"⟩)]
        ⟨[], "t0", "initialized", 0⟩).1)).1).sync_count =
      ((sync_tracking (fun _ => false) "n1"
        [("a_transkript.txt", ⟨5, "m1", "h1"⟩)]
        ⟨[], "t0", "initialized", 0⟩).1).sync_count :=
  c8_second_reconcile_noop (fun _ => false) "n1" "n2"
    [("a_transkript.txt", ⟨5, "m1", "h1"⟩)]
    ⟨[], "t0", "initialized", 0⟩ (by decide)

/-- C9 (counterexample): the sanitizer replaces characters outside
`[a-zA-Z0-9_]` with underscores rather than removing them: on the
candidate `"ab cd"` the code yields `"1234_ab_cd"` while the claimed
removal semantics yields `"1234_abcd"`. -/
theorem c9_counterexample :
    timestamped_name (strLit "1234") (strLit "ab cd") =
      strLit "1234_ab_cd" ∧
    claim_removal_name (strLit "1234") (strLit "ab cd") =
      strLit "1234_abcd" ∧
    (decide (timestamped_name (strLit "1234") (strLit "ab cd") =
      claim_removal_name (strLit "1234") (strLit "ab cd"))) = false :=
  ⟨rfl, rfl, by decide⟩

/-- C9 (amended): the sanitizer strips star markup and parenthesised
groups, replaces non-ASCII and other non-identifier characters with
underscores, collapses underscore runs, strips outer underscores, falls
back to `generated_scene` below 3 characters, caps the core at 35
characters, and prefixes the stamp: the result is the stamp, an
underscore, and at most 35 characters from `[a-zA-Z0-9_]`. -/
theorem c9_sanitized_name_format (stamp name : List Char)
    (hstamp : stamp.length = 4 ∧ ∀ c ∈ stamp, Char.isDigit c = true) :
    ∃ core, timestamped_name stamp name = stamp ++ '_' :: core ∧
      core.length ≤ 35 ∧ (∀ c ∈ core, isAlnumU c = true) ∧
      stamp.length = 4 :=
  ⟨clean_image_name name, rfl, clean_image_name_length name,
    clean_image_name_alnum name, hstamp.1⟩

/-- C9 witness at a concrete candidate. -/
theorem c9_sanitized_name_format_witness :
    ∃ core, timestamped_name (strLit "1234")
        (strLit "**Dark_Cave (Secret Chamber)**") =
      strLit "1234" ++ '_' :: core ∧
      core.length ≤ 35 ∧ (∀ c ∈ core, isAlnumU c = true) ∧
      (strLit "1234").length = 4 :=
  c9_sanitized_name_format (strLit "1234")
    (strLit "**Dark_Cave (Secret Chamber)**") (by decide)

/-- C6 (counterexample): the parser is not total on existing files: a
header line starting with a recognised key but lacking the `": "`
separator (here `"Datum:x"`) raises `IndexError` out of
`_parse_transkript`, and no result is produced. -/
theorem c6_counterexample :
    parseTranskript true
      (strLit
        "Datum:x\nZEITGESTEMPELTE SEGMENTE:\n[00:00.00 - 00:02.50] hi") =
      Except.error PErr.indexError := rfl

/-- C6 (amended): parsing a missing path fails with the not-found
error, and whenever the metadata block does not raise (no recognised
header line lacking `": "` among the first 10 lines), the parse
succeeds and returns as segments exactly those lines after the first
section marker that match the segment pattern, in file order, with
start and end from the capture groups and the text group stripped of
surrounding whitespace. -/
theorem c6_segments_characterization :
    (∀ content, parseTranskript false content =
      Except.error PErr.notFound) ∧
    (∀ content res, parseTranskript true content = Except.ok res →
      res.segmente = claim_segments content) :=
  ⟨fun _ => rfl, fun _ _ h => parse_segments_characterization h⟩

/-- C6 witness at a concrete transcript. -/
theorem c6_segments_characterization_witness :
    parseTranskript false [] = Except.error PErr.notFound ∧
    parseTranskript true
      (strLit "ZEITGESTEMPELTE SEGMENTE:\n[00:00.00 - 00:02.50] hi") =
      Except.ok
        ⟨[], [], [⟨strLit "00:00.00", strLit "00:02.50", strLit "hi"⟩]⟩ ∧
    (⟨[], [],
      [⟨strLit "00:00.00", strLit "00:02.50", strLit "hi"⟩]⟩ :
        ParseResult).segmente =
      claim_segments
        (strLit "ZEITGESTEMPELTE SEGMENTE:\n[00:00.00 - 00:02.50] hi") :=
  ⟨c6_segments_characterization.1 [], rfl,
    c6_segments_characterization.2 _ _ rfl⟩

/-- C7 (counterexample): a segment line whose text is pure whitespace
parses to a segment with empty text; its serialization no longer
matches the pattern on re-parse, so the round-trip loses the segment. -/
theorem c7_counterexample :
    parseTranskript true
      (strLit
        "ZEITGESTEMPELTE SEGMENTE:\n[00:00.00 - 00:02.50]  \n[00:03.00 - 00:04.00] x") =
      Except.ok ⟨[], [],
        [⟨strLit "00:00.00", strLit "00:02.50", []⟩,
          ⟨strLit "00:03.00", strLit "00:04.00", ['x']⟩]⟩ ∧
    parseTranskript true (roundtripContent
        [⟨strLit "00:00.00", strLit "00:02.50", []⟩,
          ⟨strLit "00:03.00", strLit "00:04.00", ['x']⟩]) =
      Except.ok ⟨[], [],
        [⟨strLit "00:03.00", strLit "00:04.00", ['x']⟩]⟩ ∧
    (decide (([⟨strLit "00:03.00", strLit "00:04.00", ['x']⟩] :
        List Segment) =
      [⟨strLit "00:00.00", strLit "00:02.50", []⟩,
        ⟨strLit "00:03.00", strLit "00:04.00", ['x']⟩])) = false :=
  ⟨rfl, rfl, by decide⟩

/-- C7 (amended): for every successfully parsed transcript all of whose
segments have nonempty text, serializing the segments with
`get_segmente_als_text` under the documented section header and
re-parsing yields an equal segment sequence. -/
theorem c7_segment_roundtrip {c : List Char} {res : ParseResult}
    (h : parseTranskript true c = Except.ok res)
    (hne : ∀ s ∈ res.segmente, s.text ≠ []) :
    ∃ res', parseTranskript true (roundtripContent res.segmente) =
      Except.ok res' ∧ res'.segmente = res.segmente :=
  parse_roundtrip_segments (parse_segs_wf h) hne

/-- C7 witness at a concrete transcript. -/
theorem c7_segment_roundtrip_witness :
    ∃ res', parseTranskript true (roundtripContent
        (⟨[], [],
          [⟨strLit "00:00.00", strLit "00:02.50", strLit "hi"⟩]⟩ :
            ParseResult).segmente) =
      Except.ok res' ∧
      res'.segmente =
        (⟨[], [],
          [⟨strLit "00:00.00", strLit "00:02.50", strLit "hi"⟩]⟩ :
            ParseResult).segmente :=
  @c7_segment_roundtrip
    (strLit "ZEITGESTEMPELTE SEGMENTE:\n[00:00.00 - 00:02.50] hi")
    ⟨[], [], [⟨strLit "00:00.00", strLit "00:02.50", strLit "hi"⟩]⟩
    rfl (by decide)

/-- A two-line VOLLTEXT section followed by the segment marker. -/
def c10content (l1 l2 : List Char) : List Char :=
  vollMarker ++ '\n' :: (l1 ++ '\n' :: (l2 ++ '\n' :: zeitMarker))

theorem getLast?_append_cons (x : List Char) (c : Char) (y : List Char)
    (hy : y ≠ []) : (x ++ c :: y).getLast? = y.getLast? := by
  rw [List.getLast?_append_of_ne_nil _ (by simp),
    show (c :: y) = [c] ++ y from rfl,
    List.getLast?_append_of_ne_nil _ hy]

/-- C10: with two non-empty, non-marker lines in the VOLLTEXT section,
the returned volltext equals only the second (last) line — each
non-empty line overwrites the previous one — and not the concatenation
of both. -/
theorem c10_volltext_overwrite (l1 l2 : List Char)
    (h1nl : '\n' ∉ l1) (h2nl : '\n' ∉ l2)
    (h1t : trimChars l1 = l1) (h2t : trimChars l2 = l2)
    (h1ne : l1 ≠ []) (h2ne : l2 ≠ [])
    (h1m : ∀ m, metaStep m l1 = Except.ok m)
    (h2m : ∀ m, metaStep m l2 = Except.ok m)
    (h1v : l1 ≠ vollMarker) (h1z : l1 ≠ zeitMarker)
    (h2v : l2 ≠ vollMarker) (h2z : l2 ≠ zeitMarker)
    (h1s : ¬List.isPrefixOf sepMarker l1 = true)
    (h2s : ¬List.isPrefixOf sepMarker l2 = true) :
    parseTranskript true (c10content l1 l2) = Except.ok ⟨[], l2, []⟩ ∧
    l1 ++ l2 ≠ l2 := by
  have htrim : trimChars (c10content l1 l2) = c10content l1 l2 := by
    refine trimChars_eq_self ?_ ?_
    · intro c hc
      rw [show c10content l1 l2 =
          'V' :: (strLit "OLLTEXT:" ++
            ('\n' :: (l1 ++ '\n' :: (l2 ++ '\n' :: zeitMarker))))
        from rfl] at hc
      cases hc
      decide
    · intro c hc
      rw [show c10content l1 l2 =
          vollMarker ++ '\n' :: (l1 ++ '\n' :: (l2 ++ '\n' :: zeitMarker))
          from rfl,
        getLast?_append_cons _ _ _ (by simp),
        getLast?_append_cons _ _ _ (by simp),
        getLast?_append_cons _ _ _ (by decide),
        show zeitMarker.getLast? = some ':' from rfl] at hc
      cases hc
      decide
  have hsplit : splitLines (c10content l1 l2) =
      [vollMarker, l1, l2, zeitMarker] := by
    rw [show c10content l1 l2 =
        vollMarker ++ '\n' :: (l1 ++ '\n' :: (l2 ++ '\n' :: zeitMarker))
        from rfl,
      splitLines_append_newline (by decide),
      splitLines_append_newline h1nl,
      splitLines_append_newline h2nl,
      splitLines_no_newline (by decide)]
  have hmeta : metaPass (splitLines (trimChars (c10content l1 l2))) =
      Except.ok [] := by
    rw [htrim, hsplit]
    refine metaPass_ok ?_
    intro l hl m
    simp only [List.mem_cons, List.not_mem_nil, or_false] at hl
    rcases hl with rfl | rfl | rfl | rfl
    · exact metaStep_vollMarker m
    · exact h1m m
    · exact h2m m
    · exact metaStep_zeitMarker m
  have hstep : ∀ (l v : List Char),
      trimChars l = l → l ≠ [] → l ≠ vollMarker → l ≠ zeitMarker →
      ¬List.isPrefixOf sepMarker l = true →
      lineStep ⟨true, false, v, []⟩ l = ⟨true, false, l, []⟩ := by
    intro l v ht hne hv hz hs
    rw [lineStep_eq_tail (by rw [ht]; exact hv) (by rw [ht]; exact hz) hs]
    rw [show volltextStep ⟨true, false, v, []⟩ l =
        ⟨true, false, trimChars l, []⟩ from by
      unfold volltextStep
      rw [if_pos ⟨rfl, by rw [ht]; exact hne⟩]]
    rw [show segStep ⟨true, false, trimChars l, []⟩ l =
        ⟨true, false, trimChars l, []⟩ from by
      unfold segStep
      rw [if_neg (by intro hx; exact absurd hx.1 (by simp))]]
    rw [ht]
  have hfold : (([vollMarker, l1, l2, zeitMarker] :
      List (List Char)).foldl lineStep ⟨false, false, [], []⟩) =
      ⟨false, true, l2, []⟩ := by
    rw [show ([vollMarker, l1, l2, zeitMarker] :
        List (List Char)).foldl lineStep ⟨false, false, [], []⟩ =
      lineStep (lineStep (lineStep (lineStep ⟨false, false, [], []⟩
        vollMarker) l1) l2) zeitMarker from rfl]
    rw [show lineStep ⟨false, false, [], []⟩ vollMarker =
        (⟨true, false, [], []⟩ : PState) from by
      rw [lineStep_eq_voll (by decide)]]
    rw [hstep l1 [] h1t h1ne h1v h1z h1s,
      hstep l2 l1 h2t h2ne h2v h2z h2s,
      lineStep_eq_zeit (by decide)]
  constructor
  · rw [parse_of_metaPass_ok hmeta, htrim, hsplit, hfold]
  · intro heq
    have hlen := congrArg List.length heq
    rw [List.length_append] at hlen
    have h0 : l1.length = 0 := by omega
    exact h1ne (List.length_eq_zero.mp h0)

/-- C10 witness at concrete lines. -/
theorem c10_volltext_overwrite_witness :
    parseTranskript true
      (c10content (strLit "Hello") (strLit "world x")) =
      Except.ok ⟨[], strLit "world x", []⟩ ∧
    strLit "Hello" ++ strLit "world x" ≠ strLit "world x" :=
  c10_volltext_overwrite (strLit "Hello") (strLit "world x")
    (by decide) (by decide) (by decide) (by decide) (by decide)
    (by decide) (fun _ => rfl) (fun _ => rfl) (by decide) (by decide)
    (by decide) (by decide) (by decide) (by decide)

end DndViz
